import Mathlib

/-!
Verification of the retrieval-and-orchestration pipeline of the
ollama-code-chat repository.  Each JavaScript/TypeScript function that the
claims touch is shallowly embedded as a Lean definition operating on exact
rationals (JS floats are idealised as `ℚ`/`ℝ`), `List Char` for strings
where character-level scanning matters, and explicit oracle parameters for
effectful inputs (the embedding endpoint, `Math.random`, the improvement
LLM call).
-/

/-! ### Generic string helpers (JS `String.prototype` operations) -/

/-- JS `haystack.includes(needle)`: substring containment test. -/
def containsSub (pat : List Char) : List Char → Bool
  | [] => pat.isEmpty
  | c :: rest => pat.isPrefixOf (c :: rest) || containsSub pat rest

/-- JS `s.split(sep)` for a one-character separator: the number of pieces is
the number of separators plus one, and empty pieces are kept. -/
def jsSplitOnChar (sep : Char) : List Char → List (List Char)
  | [] => [[]]
  | c :: rest =>
    if c = sep then [] :: jsSplitOnChar sep rest
    else
      match jsSplitOnChar sep rest with
      | [] => [[c]]
      | p :: ps => (c :: p) :: ps

/-- Lowercase every character (JS `toLowerCase`, ASCII behaviour). -/
def lowerChars (s : List Char) : List Char := s.map Char.toLower

/-! ### Chunker (`chunkText` in `useVectorStore.ts`)

The while loop

    while (start < text.length) {
      const end = Math.min(start + chunkSize, text.length);
      chunks.push(text.slice(start, end));
      if (end === text.length) break;
      start = end - overlap;
    }

is embedded as a fuel-indexed loop over window spans `(start, end)`;
`text.length` units of fuel are enough whenever `overlap < chunkSize`
because `start` strictly increases within `[0, text.length)`. -/

def chunkSpansLoop (len w o : ℕ) : ℕ → ℕ → List (ℕ × ℕ)
  | 0, _ => []
  | fuel + 1, start =>
    if start < len then
      let e := min (start + w) len
      if e = len then [(start, e)]
      else (start, e) :: chunkSpansLoop len w o fuel (e - o)
    else []

/-- The window spans produced by `chunkText` on a text of length `len`
with window size `w` and overlap `o`. -/
def chunkSpans (len w o : ℕ) : List (ℕ × ℕ) :=
  chunkSpansLoop len w o len 0

/-- `chunkText`: each span `(s, e)` carries the slice `text.slice(s, e)`. -/
def chunkText (text : List Char) (w o : ℕ) : List (List Char × ℕ × ℕ) :=
  (chunkSpans text.length w o).map fun p => ((text.drop p.1).take (p.2 - p.1), p.1, p.2)

/-! ### Planner (`ManagerAgent.calculateQueryComplexity`) -/

/-- `calculateQueryComplexity(query, types)` from `ManagerAgent.ts`:

    let complexity = 0.3;
    complexity += Math.min(query.length / 500, 0.2);
    complexity += types.length * 0.1;
    if (query.includes('and') || query.includes('also')) complexity += 0.1;
    if (query.split('?').length > 2) complexity += 0.1;
    if (query.length > 200) complexity += 0.1;
    return Math.min(complexity, 1.0);
-/
def calculateQueryComplexity (query : List Char) (types : List String) : ℚ :=
  let c1 : ℚ := 3/10
  let c2 := c1 + min ((query.length : ℚ) / 500) (2/10)
  let c3 := c2 + (types.length : ℚ) * (1/10)
  let c4 := if containsSub "and".data query || containsSub "also".data query then c3 + 1/10 else c3
  let c5 := if 2 < (jsSplitOnChar (Char.ofNat 63) query).length then c4 + 1/10 else c4
  let c6 := if 200 < query.length then c5 + 1/10 else c5
  min c6 1

/-- The complexity formula exactly as the specification claims it
(`0.3 + min(len/500,0.2) + 0.1×matchedTypeCount + 0.1 if conjunction words
present + 0.1 if query length > 200`, clamped to 1.0) — written from the
spec's words for comparison with `calculateQueryComplexity`. -/
def claimedQueryComplexity (query : List Char) (types : List String) : ℚ :=
  min (3/10 + min ((query.length : ℚ) / 500) (2/10) + (types.length : ℚ) * (1/10)
    + (if containsSub "and".data query || containsSub "also".data query then 1/10 else 0)
    + (if 200 < query.length then 1/10 else 0)) 1

/-- The amended formula: the code additionally adds 0.1 when the query
contains at least two question marks (`query.split('?').length > 2`). -/
def amendedQueryComplexity (query : List Char) (types : List String) : ℚ :=
  min (3/10 + min ((query.length : ℚ) / 500) (2/10) + (types.length : ℚ) * (1/10)
    + (if containsSub "and".data query || containsSub "also".data query then 1/10 else 0)
    + (if 2 < (jsSplitOnChar (Char.ofNat 63) query).length then 1/10 else 0)
    + (if 200 < query.length then 1/10 else 0)) 1

/-! ### Chunker lemmas -/

theorem chunkSpansLoop_spec (len w o : ℕ) (how : o < w) :
    ∀ fuel start, start < len → len - start ≤ fuel →
      (chunkSpansLoop len w o fuel start ≠ []) ∧
      ((chunkSpansLoop len w o fuel start).head?.map Prod.fst = some start) ∧
      (∀ p ∈ chunkSpansLoop len w o fuel start, p.1 < p.2 ∧ p.2 = min (p.1 + w) len) ∧
      List.Chain' (fun p q : ℕ × ℕ => q.1 = p.2 - o) (chunkSpansLoop len w o fuel start) ∧
      ((chunkSpansLoop len w o fuel start).getLast?.map Prod.snd = some len) ∧
      (∀ i, start ≤ i → i < len →
        ∃ p ∈ chunkSpansLoop len w o fuel start, p.1 ≤ i ∧ i < p.2) := by
  intro fuel
  induction fuel with
  | zero =>
    intro start hs hf
    omega
  | succ fuel ih =>
    intro start hs hf
    have hw : 0 < w := by omega
    by_cases hend : min (start + w) len = len
    · -- final window
      have : chunkSpansLoop len w o (fuel + 1) start = [(start, min (start + w) len)] := by
        simp [chunkSpansLoop, hs, hend]
      rw [this]
      refine ⟨by simp, by simp, ?_, by simp, by simp [hend], ?_⟩
      · intro p hp
        simp at hp
        subst hp
        exact ⟨by simp [hend]; omega, rfl⟩
      · intro i hi hilt
        exact ⟨(start, min (start + w) len), by simp, hi, by simp [hend]; omega⟩
    · -- non-final window: end = start + w < len, recurse from start + w - o
      have hlt : start + w < len := by
        rcases Nat.lt_or_ge (start + w) len with h | h
        · exact h
        · exact absurd (Nat.min_eq_right h) hend
      have hemin : min (start + w) len = start + w := Nat.min_eq_left (Nat.le_of_lt hlt)
      have hstep : chunkSpansLoop len w o (fuel + 1) start =
          (start, start + w) :: chunkSpansLoop len w o fuel (start + w - o) := by
        have h1 : ¬ (start + w = len) := by omega
        simp [chunkSpansLoop, hs, hemin, h1]
      have hs' : start + w - o < len := by omega
      have hf' : len - (start + w - o) ≤ fuel := by omega
      obtain ⟨hne, hhead, hall, hchain, hlast, hcover⟩ := ih (start + w - o) hs' hf'
      rw [hstep]
      refine ⟨by simp, by simp, ?_, ?_, ?_, ?_⟩
      · intro p hp
        rcases List.mem_cons.mp hp with h | h
        · subst h
          exact ⟨by omega, by simp [hemin]⟩
        · exact hall p h
      · refine List.chain'_cons'.mpr ⟨?_, hchain⟩
        intro q hq
        have := hhead
        cases hh : (chunkSpansLoop len w o fuel (start + w - o)).head? with
        | none => simp [hh] at hq
        | some q' =>
          simp [hh] at hq this
          subst hq
          simp [← this]
      · obtain ⟨x, xs, hx⟩ := List.exists_cons_of_ne_nil hne
        rw [hx, List.getLast?_cons_cons]
        rw [hx] at hlast
        exact hlast
      · intro i hi hilt
        rcases Nat.lt_or_ge i (start + w) with hlo | hhi
        · exact ⟨(start, start + w), by simp, hi, hlo⟩
        · obtain ⟨p, hp, hp1, hp2⟩ := hcover i (by omega) hilt
          exact ⟨p, List.mem_cons_of_mem _ hp, hp1, hp2⟩

/-- Claim C7: for every non-empty text and parameters with `overlap < windowSize`,
the chunker terminates and produces non-empty windows covering the whole
character range: the first window starts at 0, each subsequent window starts at
the previous window's end minus the overlap, and the final window's end equals
the text length. -/
theorem chunkText_covers (text : List Char) (w o : ℕ)
    (hne : text ≠ []) (how : o < w) :
    (chunkSpans text.length w o ≠ []) ∧
    ((chunkSpans text.length w o).head?.map Prod.fst = some 0) ∧
    (∀ p ∈ chunkSpans text.length w o, p.1 < p.2) ∧
    List.Chain' (fun p q : ℕ × ℕ => q.1 = p.2 - o) (chunkSpans text.length w o) ∧
    ((chunkSpans text.length w o).getLast?.map Prod.snd = some text.length) ∧
    (∀ i < text.length, ∃ p ∈ chunkSpans text.length w o, p.1 ≤ i ∧ i < p.2) ∧
    (∀ c ∈ chunkText text w o, c.1 ≠ []) := by
  have hlen : 0 < text.length := List.length_pos.mpr hne
  obtain ⟨h1, h2, h3, h4, h5, h6⟩ :=
    chunkSpansLoop_spec text.length w o how text.length 0 hlen (by omega)
  refine ⟨h1, h2, fun p hp => (h3 p hp).1, h4, h5, fun i hi => h6 i (Nat.zero_le _) hi, ?_⟩
  intro c hc
  simp only [chunkText, List.mem_map] at hc
  obtain ⟨p, hp, hpc⟩ := hc
  obtain ⟨hlt, hmin⟩ := h3 p hp
  subst hpc
  intro hnil
  have hnil' : List.take (p.2 - p.1) (List.drop p.1 text) = [] := hnil
  have hlen2 : ((text.drop p.1).take (p.2 - p.1)).length = 0 := by rw [hnil']; rfl
  have hle : p.2 ≤ text.length := by rw [hmin]; exact min_le_right _ _
  rw [List.length_take, List.length_drop] at hlen2
  omega

/-- Witness for C7 at a concrete input: text "hello" (length 5), window 2,
overlap 1. -/
theorem chunkText_covers_witness :
    ("hello".data ≠ [] ∧ 1 < 2) ∧
    ((chunkSpans "hello".data.length 2 1 ≠ []) ∧
    ((chunkSpans "hello".data.length 2 1).head?.map Prod.fst = some 0) ∧
    (∀ p ∈ chunkSpans "hello".data.length 2 1, p.1 < p.2) ∧
    List.Chain' (fun p q : ℕ × ℕ => q.1 = p.2 - 1) (chunkSpans "hello".data.length 2 1) ∧
    ((chunkSpans "hello".data.length 2 1).getLast?.map Prod.snd = some "hello".data.length) ∧
    (∀ i < "hello".data.length, ∃ p ∈ chunkSpans "hello".data.length 2 1, p.1 ≤ i ∧ i < p.2) ∧
    (∀ c ∈ chunkText "hello".data 2 1, c.1 ≠ [])) :=
  ⟨⟨by decide, by decide⟩, chunkText_covers "hello".data 2 1 (by decide) (by decide)⟩

/-- Claim C5 (as stated) is false: for the query `"ok??"` with no matched
intent types, the code's complexity is 0.408 (the `split('?').length > 2`
branch adds 0.1) while the claimed formula gives 0.308. -/
theorem calculateQueryComplexity_counterexample :
    calculateQueryComplexity "ok??".data [] = 51/125 ∧
    claimedQueryComplexity "ok??".data [] = 77/250 ∧
    calculateQueryComplexity "ok??".data [] ≠ claimedQueryComplexity "ok??".data [] := by
  have h1 : (containsSub "and".data "ok??".data || containsSub "also".data "ok??".data) = false := by
    decide
  have h2 : 2 < (jsSplitOnChar (Char.ofNat 63) "ok??".data).length := by decide
  have h4 : "ok??".data.length = 4 := by decide
  have e1 : calculateQueryComplexity "ok??".data [] = 51/125 := by
    simp only [calculateQueryComplexity, h1, h2, h4, Bool.false_eq_true, if_false, if_true, if_pos]
    norm_num [min_def]
  have e2 : claimedQueryComplexity "ok??".data [] = 77/250 := by
    simp only [claimedQueryComplexity, h1, h4, Bool.false_eq_true, if_false]
    norm_num [min_def]
  exact ⟨e1, e2, by rw [e1, e2]; norm_num⟩

/-- Claim C5, amended: the Planner's estimated complexity equals
`0.3 + min(len/500, 0.2) + 0.1×matchedTypeCount + 0.1 if conjunction words
present + 0.1 if the query contains at least two question marks + 0.1 if the
query length exceeds 200`, clamped to at most 1.0. -/
theorem calculateQueryComplexity_amended (query : List Char) (types : List String) :
    calculateQueryComplexity query types = amendedQueryComplexity query types := by
  unfold calculateQueryComplexity amendedQueryComplexity
  by_cases h1 : (containsSub "and".data query || containsSub "also".data query) = true <;>
    by_cases h2 : 2 < (jsSplitOnChar (Char.ofNat 63) query).length <;>
      by_cases h3 : 200 < query.length <;>
        simp only [h1, h2, h3, Bool.not_eq_true, if_true, if_false, if_pos, if_neg,
          not_false_iff, Bool.false_eq_true, add_zero]

/-! ### Embedding fallbacks

`EmbeddingAgent.generateFallbackEmbedding(text)` seeds an accumulator from
position-weighted character codes, iterates
`seed = (seed*9301+49297) % 233280`, maps each seed to a value in
`[-0.5, 0.5)`, and L2-normalizes.  `useVectorStore.generateEmbedding`'s
catch branch instead returns `Array(384).fill(0).map(() => Math.random() - 0.5)`;
the stream of `Math.random()` results is an explicit oracle argument.
(`charCodeAt` returns UTF-16 code units; `Char.toNat` agrees on the
basic multilingual plane.) -/

/-- One step of the linear-congruential recurrence. -/
def lcgNext (s : ℕ) : ℕ := (s * 9301 + 49297) % 233280

/-- The successive seeds produced by `n` iterations of the recurrence. -/
def lcgValues : ℕ → ℕ → List ℕ
  | 0, _ => []
  | n + 1, s => lcgNext s :: lcgValues n (lcgNext s)

/-- `seed += text.charCodeAt(i) * (i + 1)` starting from 0. -/
def fallbackSeed (codes : List ℕ) : ℕ :=
  (List.map (fun p : ℕ × ℕ => p.2 * (p.1 + 1)) codes.enum).sum

/-- The fallback vector before normalization: `(seed / 233280) - 0.5`. -/
def generateFallbackRaw (text : String) : List ℚ :=
  List.map (fun s : ℕ => (s : ℚ) / 233280 - 1/2)
    (lcgValues 384 (fallbackSeed (List.map Char.toNat text.data)))

/-- `EmbeddingAgent.generateFallbackEmbedding`: the raw vector divided by its
L2 magnitude. -/
noncomputable def generateFallbackEmbedding (text : String) : List ℝ :=
  let e : List ℝ := List.map (fun v : ℚ => (v : ℝ)) (generateFallbackRaw text)
  let magnitude := Real.sqrt ((List.map (fun v : ℝ => v * v) e).sum)
  List.map (fun v : ℝ => v / magnitude) e

/-- The vector store's fallback: 384 draws of `Math.random() - 0.5`,
where `rand i` is the `i`-th result of `Math.random()` during the call. -/
def storeFallbackEmbedding (rand : ℕ → ℚ) : List ℚ :=
  (List.range 384).map fun i => rand i - 1/2

theorem lcgValues_length (n s : ℕ) : (lcgValues n s).length = n := by
  induction n generalizing s with
  | zero => rfl
  | succ n ih => simp [lcgValues, ih]

theorem lcgNext_lt (s : ℕ) : lcgNext s < 233280 := Nat.mod_lt _ (by norm_num)

theorem lcgValues_lt (n s : ℕ) : ∀ x ∈ lcgValues n s, x < 233280 := by
  induction n generalizing s with
  | zero => simp [lcgValues]
  | succ n ih =>
    intro x hx
    rw [lcgValues] at hx
    rcases List.mem_cons.mp hx with h | h
    · exact h ▸ lcgNext_lt s
    · exact ih (lcgNext s) x h

theorem list_single_le_sum (l : List ℚ) (h : ∀ x ∈ l, 0 ≤ x) :
    ∀ x ∈ l, x ≤ l.sum := by
  induction l with
  | nil => simp
  | cons a l ih =>
    intro x hx
    rcases List.mem_cons.mp hx with hxa | hxl
    · subst hxa
      have : 0 ≤ l.sum := List.sum_nonneg fun y hy => h y (List.mem_cons_of_mem _ hy)
      simp only [List.sum_cons]
      linarith
    · have h1 : 0 ≤ a := h a (List.mem_cons_self _ _)
      have := ih (fun y hy => h y (List.mem_cons_of_mem _ hy)) x hxl
      simp only [List.sum_cons]
      linarith

/-- Claim C2 (as stated) is false for the vector store's embedding fallback:
the catch branch of `useVectorStore.generateEmbedding` samples `Math.random()`,
so two simulated-outage calls with the identical text can return different
vectors (here: one call whose random draws are all 0, one whose draws are
all 1). -/
theorem storeFallback_not_deterministic :
    storeFallbackEmbedding (fun _ => 0) ≠ storeFallbackEmbedding (fun _ => 1) := by
  intro h
  have h0 := congrArg (fun l : List ℚ => l[0]?) h
  simp only [storeFallbackEmbedding, List.getElem?_map, List.getElem?_range,
    show (0:ℕ) < 384 by norm_num, if_true] at h0
  norm_num at h0

theorem mem_lcgValues_first (n : ℕ) (hn : 1 ≤ n) (s : ℕ) : lcgNext s ∈ lcgValues n s := by
  cases n with
  | zero => omega
  | succ m => exact List.mem_cons_self _ _

theorem mem_lcgValues_second (n : ℕ) (hn : 2 ≤ n) (s : ℕ) :
    lcgNext (lcgNext s) ∈ lcgValues n s := by
  cases n with
  | zero => omega
  | succ m =>
    cases m with
    | zero => omega
    | succ k => exact List.mem_cons_of_mem _ (List.mem_cons_self _ _)

theorem lcg_second_ne_zero (s : ℕ) :
    ((lcgNext s : ℚ) / 233280 - 1/2 ≠ 0) ∨
    ((lcgNext (lcgNext s) : ℚ) / 233280 - 1/2 ≠ 0) := by
  by_cases h1 : lcgNext s = 116640
  · right
    rw [h1]
    have h165 : lcgNext 116640 = 165937 := by norm_num [lcgNext]
    rw [h165]
    norm_num
  · left
    intro hzero
    apply h1
    have h2 : (lcgNext s : ℚ) / 233280 = 1/2 := by linarith
    have h3 : (lcgNext s : ℚ) = 116640 := by
      field_simp at h2
      linarith
    exact_mod_cast h3

/-- Claim C2, amended: the `EmbeddingAgent` fallback is deterministic and
exactly as the claim describes (length 384, LCG-generated raw values in
[-0.5, 0.5], positive squared magnitude, L2-normalized); however the vector
store's `generateEmbedding` fallback is `Math.random()`-based (see the
counterexample) rather than deterministic. -/
theorem generateFallbackEmbedding_spec (text : String) :
    (generateFallbackEmbedding text).length = 384 ∧
    (generateFallbackRaw text).length = 384 ∧
    (∀ v ∈ generateFallbackRaw text, -(1/2) ≤ v ∧ v ≤ 1/2) ∧
    0 < ((generateFallbackRaw text).map fun v => v * v).sum ∧
    (∀ t₂ : String, text.data = t₂.data →
      generateFallbackEmbedding text = generateFallbackEmbedding t₂) := by
  have hrawlen : (generateFallbackRaw text).length = 384 := by
    rw [generateFallbackRaw, List.length_map, lcgValues_length]
  refine ⟨?_, hrawlen, ?_, ?_, ?_⟩
  · simp only [generateFallbackEmbedding, List.length_map, hrawlen]
  · intro v hv
    simp only [generateFallbackRaw, List.mem_map] at hv
    obtain ⟨s, hs, rfl⟩ := hv
    have hlt := lcgValues_lt _ _ s hs
    constructor
    · have h0 : (0:ℚ) ≤ (s : ℚ) / 233280 := by positivity
      linarith
    · have hle : (s : ℚ) ≤ 233279 := by exact_mod_cast Nat.le_of_lt_succ hlt
      have hdiv : (s : ℚ) / 233280 ≤ 233279 / 233280 := by gcongr
      have : (233279 : ℚ) / 233280 ≤ 1 := by norm_num
      linarith
  · set seed := fallbackSeed (text.data.map Char.toNat) with hseed
    have hex : ∃ v ∈ generateFallbackRaw text, v ≠ 0 := by
      rcases lcg_second_ne_zero seed with hne | hne
      · refine ⟨(lcgNext seed : ℚ) / 233280 - 1/2, ?_, hne⟩
        simp only [generateFallbackRaw, ← hseed]
        exact List.mem_map_of_mem _ (mem_lcgValues_first 384 (by norm_num) seed)
      · refine ⟨(lcgNext (lcgNext seed) : ℚ) / 233280 - 1/2, ?_, hne⟩
        simp only [generateFallbackRaw, ← hseed]
        exact List.mem_map_of_mem _ (mem_lcgValues_second 384 (by norm_num) seed)
    obtain ⟨v, hv, hvne⟩ := hex
    have hsqmem : v * v ∈ (generateFallbackRaw text).map fun u => u * u :=
      List.mem_map_of_mem _ hv
    have hpos : 0 < v * v := mul_self_pos.mpr hvne
    have hle := list_single_le_sum ((generateFallbackRaw text).map fun u => u * u)
      (fun x hx => by
        simp only [List.mem_map] at hx
        obtain ⟨u, _, rfl⟩ := hx
        exact mul_self_nonneg u) _ hsqmem
    linarith
  · intro t₂ hdata
    simp [generateFallbackEmbedding, generateFallbackRaw, hdata]

/-- Witness for the amended C2 at the concrete text "ab": the hypothesis of
the determinism conjunct (identical character data) is discharged by `rfl`. -/
theorem generateFallbackEmbedding_spec_witness :
    ("ab".data = "ab".data) ∧
    (generateFallbackEmbedding "ab").length = 384 ∧
    generateFallbackEmbedding "ab" = generateFallbackEmbedding "ab" :=
  ⟨rfl, (generateFallbackEmbedding_spec "ab").1,
    (generateFallbackEmbedding_spec "ab").2.2.2.2 "ab" rfl⟩

/-! ### Verifier (`VerifierAgent.ts`)

All five quality checks are embedded over `List Char` with exact rational
arithmetic.  JS regular expressions are hand-translated: `\w` is
alphanumeric-or-underscore, `.` does not match a newline, `\b` is a
word/non-word boundary.  `Math.random`-free and effect-free, so every check
is a pure function; the improvement LLM call of `improveResponse` is an
`Option` oracle (`none` = the call failed or returned no text). -/

/-- JS `\w` word characters. -/
def isWordChar (c : Char) : Bool := c.isAlphanum || c = '_'

/-- JS `s.split(/\s+/)`: split on maximal whitespace runs, keeping the empty
leading/trailing pieces JS produces. -/
def jsSplitWSLoop : ℕ → List Char → List Char → List (List Char)
  | 0, acc, _ => [acc.reverse]
  | _ + 1, acc, [] => [acc.reverse]
  | fuel + 1, acc, c :: rest =>
    if c.isWhitespace then
      acc.reverse :: jsSplitWSLoop fuel [] (rest.dropWhile Char.isWhitespace)
    else
      jsSplitWSLoop fuel (c :: acc) rest

def jsSplitWS (s : List Char) : List (List Char) := jsSplitWSLoop (s.length + 1) [] s

/-- JS `String.prototype.trim`. -/
def trimChars (l : List Char) : List Char :=
  ((l.dropWhile Char.isWhitespace).reverse.dropWhile Char.isWhitespace).reverse

/-- `VerifierAgent.extractKeywords`: lowercase, split on whitespace, keep
words longer than 2 that are not stop words, first 15. -/
def verifierStopWords : List (List Char) :=
  (["the", "a", "an", "and", "or", "but", "in", "on", "at", "to", "for",
    "of", "with", "by", "is", "are", "was", "were"]).map String.data

def extractKeywords (text : List Char) : List (List Char) :=
  ((jsSplitWS (lowerChars text)).filter
    fun w => decide (2 < w.length) && !(verifierStopWords.contains w)).take 15

/-- The suffix of `s` after the first occurrence of `pat`, if any. -/
def dropAfterFirst (s pat : List Char) : Option (List Char) :=
  match s with
  | [] => if pat.isEmpty then some [] else none
  | c :: rest =>
    if pat.isPrefixOf (c :: rest) then some ((c :: rest).drop pat.length)
    else dropAfterFirst rest pat

/-- `a` followed later by `b` within one string (no newline constraint here;
callers split into lines first, mirroring `.` not matching newlines). -/
def containsThenIn (l a b : List Char) : Bool :=
  match dropAfterFirst l a with
  | some rest => containsSub b rest
  | none => false

def containsThen3In (l a b c : List Char) : Bool :=
  match dropAfterFirst l a with
  | some r1 =>
    match dropAfterFirst r1 b with
    | some r2 => containsSub c r2
    | none => false
  | none => false

/-- A case-insensitive `/a.*b/` test (`.` does not cross newlines). -/
def regexThenTest (resp : List Char) (a b : List Char) : Bool :=
  (jsSplitOnChar '\n' (lowerChars resp)).any fun l => containsThenIn l a b

def regexThen3Test (resp : List Char) (a b c : List Char) : Bool :=
  (jsSplitOnChar '\n' (lowerChars resp)).any fun l => containsThen3In l a b c

/-- `VerifierAgent.checkProgrammingFacts`: 0.1 per matched known-true
pattern, capped at 0.5. -/
def checkProgrammingFacts (response : List Char) : ℚ :=
  let m1 := regexThenTest response "javascript".data "interpreted".data
  let m2 := regexThenTest response "python".data "indentation".data
  let m3 := regexThen3Test response "typescript".data "superset".data "javascript".data
  let m4 := regexThenTest response "react".data "component".data
  let m5 := regexThenTest response "async".data "await".data
  let factScore : ℚ := ((if m1 then (1:ℚ)/10 else 0) + (if m2 then (1:ℚ)/10 else 0)
    + (if m3 then (1:ℚ)/10 else 0) + (if m4 then (1:ℚ)/10 else 0)
    + (if m5 then (1:ℚ)/10 else 0))
  min factScore (1/2)

/-- `VerifierAgent.checkTechnicalAccuracy`. -/
def checkTechnicalAccuracy (response : List Char) : ℚ :=
  let acc : ℚ := (if containsSub "function".data response && containsSub "return".data response
      then (1:ℚ)/10 else 0)
    + (if containsSub "class".data response && containsSub "constructor".data response
      then (1:ℚ)/10 else 0)
    + (if containsSub "import".data response && containsSub "export".data response
      then (1:ℚ)/10 else 0)
  min acc (3/10)

def questionWordsList : List (List Char) :=
  (["how", "what", "why", "when", "where", "which", "who"]).map String.data

/-- The per-question-word answer test of `checkResponseRelevance`
(checked against the raw response, as in the source). -/
def answersQuestionWord (response : List Char) (w : List Char) : Bool :=
  if w = "how".data then
    containsSub "by".data response || containsSub "through".data response ||
      containsSub "using".data response
  else if w = "what".data then
    containsSub "is".data response || containsSub "are".data response ||
      containsSub "means".data response
  else if w = "why".data then
    containsSub "because".data response || containsSub "due to".data response ||
      containsSub "reason".data response
  else true

/-- `VerifierAgent.checkResponseRelevance`. -/
def checkResponseRelevance (query response : List Char) : ℚ :=
  let queryKeywords := extractKeywords (lowerChars query)
  let responseKeywords := extractKeywords (lowerChars response)
  let keywordOverlap := (queryKeywords.filter fun k =>
    responseKeywords.any fun r => containsSub k r || containsSub r k).length
  let relevanceScore : ℚ := (keywordOverlap : ℚ) / ((max queryKeywords.length 1 : ℕ) : ℚ)
  let conf1 := relevanceScore * (6/10)
  let queryQuestionWords := questionWordsList.filter fun w => containsSub w (lowerChars query)
  let conf2 := if 0 < queryQuestionWords.length then
      (if queryQuestionWords.any (answersQuestionWord response) then conf1 + 2/10 else conf1)
    else conf1
  let conf3 := if 100 < response.length ∧ response.length < 2000 then conf2 + 1/10 else conf2
  let conf4 := if (containsSub "code".data (lowerChars query)
        || containsSub "implement".data (lowerChars query))
      && (containsSub "```".data response || containsSub [Char.ofNat 96] response)
    then conf3 + 1/10 else conf3
  min conf4 (19/20)

def contradictionIndicators : List (List Char) :=
  (["not", "never", "cannot", "impossible", "wrong", "incorrect", "false"]).map String.data

/-- `VerifierAgent.checkFactualAccuracy`. -/
def checkFactualAccuracy (response : List Char) (context : List (List Char)) : ℚ :=
  let base : ℚ := 7/10
  let c1 := if context ≠ [] then
      let contextText := lowerChars (List.intercalate " ".data context)
      let responseText := lowerChars response
      let contradictions := (contradictionIndicators.filter fun i =>
        containsSub i responseText && containsSub i contextText).length
      if contradictions = 0 then base + 1/10 else base - (contradictions : ℚ) * (5/100)
    else base
  let c2 := c1 + checkProgrammingFacts response * (1/10)
  let c3 := c2 + checkTechnicalAccuracy response * (1/10)
  max (min c3 (19/20)) (3/10)

/-- Boundary-respecting split of the source's
`query.split(/\band\b|\bor\b|\balso\b/)`. -/
def boundaryOkBefore (prev : Option Char) : Bool :=
  match prev with
  | none => true
  | some c => !isWordChar c

def boundaryOkAfter : List Char → Bool
  | [] => true
  | c :: _ => !isWordChar c

def matchClauseSep (prev : Option Char) (s : List Char) : Option ℕ :=
  if boundaryOkBefore prev then
    if "and".data.isPrefixOf s ∧ boundaryOkAfter (s.drop 3) then some 3
    else if "or".data.isPrefixOf s ∧ boundaryOkAfter (s.drop 2) then some 2
    else if "also".data.isPrefixOf s ∧ boundaryOkAfter (s.drop 4) then some 4
    else none
  else none

def splitClausesLoop : ℕ → Option Char → List Char → List Char → List (List Char)
  | 0, _, acc, _ => [acc.reverse]
  | _ + 1, _, acc, [] => [acc.reverse]
  | fuel + 1, prev, acc, c :: rest =>
    match matchClauseSep prev (c :: rest) with
    | some n =>
      acc.reverse ::
        splitClausesLoop fuel (((c :: rest).take n).getLast? ) [] ((c :: rest).drop n)
    | none => splitClausesLoop fuel (some c) (c :: acc) rest

def splitClauses (s : List Char) : List (List Char) :=
  splitClausesLoop (s.length + 1) none [] s

/-- `VerifierAgent.checkCompleteness`. -/
def checkCompleteness (query response : List Char) : ℚ :=
  let queryParts := splitClauses query
  let base : ℚ := if 1 < queryParts.length then
      let addressed := queryParts.filter fun part =>
        (extractKeywords (lowerChars part)).any fun kw => containsSub kw (lowerChars response)
      (addressed.length : ℚ) / (queryParts.length : ℚ)
    else 8/10
  let c1 := if 300 < response.length then base + 1/10 else base
  let c2 := if containsSub "example".data response || containsSub "```".data response
    then c1 + 1/10 else c1
  let c3 := if containsSub "however".data response || containsSub "also".data response
      || containsSub "additionally".data response
    then c2 + 5/100 else c2
  min c3 (19/20)

/-! ### Code-block extraction and validity (`checkCodeValidity`) -/

def fenceChar : Char := Char.ofNat 96

def fence3 : List Char := [fenceChar, fenceChar, fenceChar]

/-- Split around the first "```" fence: `some (before, after)` when one
exists. -/
def splitOnFence : List Char → Option (List Char × List Char)
  | a :: b :: c :: rest =>
    if a = fenceChar ∧ b = fenceChar ∧ c = fenceChar then some ([], rest)
    else (splitOnFence (b :: c :: rest)).map fun p => (a :: p.1, p.2)
  | _ => none

/-- The non-greedy global matches of ```` /```[\s\S]*?```/g ````: pair up
fences left to right. -/
def codeBlocksLoop : ℕ → List Char → List (List Char)
  | 0, _ => []
  | fuel + 1, s =>
    match splitOnFence s with
    | none => []
    | some (_, rest1) =>
      match splitOnFence rest1 with
      | none => []
      | some (mid, rest2) => (fence3 ++ mid ++ fence3) :: codeBlocksLoop fuel rest2

def codeBlockMatches (s : List Char) : List (List Char) := codeBlocksLoop (s.length + 1) s

/-- The global matches of `` /`[^`]+`/g ``. -/
def inlineCodeLoop : ℕ → List Char → List (List Char)
  | 0, _ => []
  | _ + 1, [] => []
  | fuel + 1, c :: rest =>
    if c = fenceChar then
      let mid := rest.takeWhile fun x => x ≠ fenceChar
      let after := rest.drop mid.length
      match after with
      | _ :: rest2 =>
        if mid.isEmpty then inlineCodeLoop fuel rest
        else (fenceChar :: (mid ++ [fenceChar])) :: inlineCodeLoop fuel rest2
      | [] => []
    else inlineCodeLoop fuel rest

def inlineCodeMatches (s : List Char) : List (List Char) := inlineCodeLoop (s.length + 1) s

/-- `block.replace(/```\w*\n?/, '').replace(/```$/, '')` for blocks produced
by the matcher (each begins and ends with a fence, so the first pattern
matches at position 0). -/
def stripFence (b : List Char) : List Char :=
  let afterOpen := (b.drop 3).dropWhile isWordChar
  let afterNl := match afterOpen with
    | c :: rest => if c = '\n' then rest else afterOpen
    | [] => []
  let r := afterNl.reverse
  if fence3.isPrefixOf r then (r.drop 3).reverse else afterNl

def openBracketChars : List Char := ['(', '[', Char.ofNat 123]

def closeBracketChars : List Char := [')', ']', Char.ofNat 125]

def closingOf (c : Char) : Char :=
  if c = '(' then ')' else if c = '[' then ']' else Char.ofNat 125

/-- Stack-based bracket matcher (`checkMatchingBraces`). -/
def bracesGo : List Char → List Char → Bool
  | [], stack => stack.isEmpty
  | c :: rest, stack =>
    if openBracketChars.contains c then bracesGo rest (c :: stack)
    else if closeBracketChars.contains c then
      match stack with
      | [] => false
      | t :: ts => if closingOf t = c then bracesGo rest ts else false
    else bracesGo rest stack

def checkMatchingBraces (code : List Char) : Bool := bracesGo code []

def quoteChar : Char := Char.ofNat 39

/-- `checkBasicSyntax`: every non-blank line has even counts of single and
double quotes. -/
def checkBasicSyntax (code : List Char) : Bool :=
  (jsSplitOnChar '\n' code).all fun line =>
    let trimmed := trimChars line
    trimmed.isEmpty ||
      (decide (trimmed.count quoteChar % 2 = 0) && decide (trimmed.count '"' % 2 = 0))

/-- `VerifierAgent.checkCodeValidity`. -/
def checkCodeValidity (response : List Char) : ℚ :=
  let codeBlocks := codeBlockMatches response
  let inlineCode := inlineCodeMatches response
  if codeBlocks.length = 0 ∧ inlineCode.length = 0 then 8/10
  else
    let validCodeBlocks := (codeBlocks.filter fun b =>
      checkMatchingBraces (stripFence b) && checkBasicSyntax (stripFence b)).length
    let confidence : ℚ := if 0 < codeBlocks.length
      then (validCodeBlocks : ℚ) / (codeBlocks.length : ℚ) else 8/10
    max confidence (3/10)

/-- The code-validity score exactly as the specification claims it
("if no code blocks, fixed 0.8; else fraction of code blocks with balanced
brackets AND balanced quote counts per line") — written from the spec's
words for comparison with `checkCodeValidity`. -/
def claimedCodeValidity (response : List Char) : ℚ :=
  let codeBlocks := codeBlockMatches response
  if codeBlocks.length = 0 then 8/10
  else ((codeBlocks.filter fun b =>
    checkMatchingBraces (stripFence b) && checkBasicSyntax (stripFence b)).length : ℚ)
      / (codeBlocks.length : ℚ)

/-! ### Consistency check -/

/-- Maximal `\w`-runs of a text. -/
def wordRunsLoop : ℕ → List Char → List (List Char)
  | 0, _ => []
  | _ + 1, [] => []
  | fuel + 1, c :: rest =>
    if isWordChar c then
      ((c :: rest).takeWhile isWordChar) :: wordRunsLoop fuel ((c :: rest).dropWhile isWordChar)
    else wordRunsLoop fuel rest

def wordRuns (s : List Char) : List (List Char) := wordRunsLoop (s.length + 1) s

/-- Full-run match of `/\b[A-Z][a-zA-Z]*[A-Z][a-zA-Z]*\b/`. -/
def isUpperCamelRun (r : List Char) : Bool :=
  r.all Char.isAlpha && (match r with | [] => false | c :: rest => c.isUpper && rest.any Char.isUpper)

/-- Full-run match of `/\b[a-z]+[A-Z][a-zA-Z]*\b/`. -/
def isLowerCamelRun (r : List Char) : Bool :=
  r.all Char.isAlpha && (match r with | [] => false | c :: rest => c.isLower && rest.any Char.isUpper)

/-- Full-run match of `/\b[a-z]+_[a-z]+\b/`. -/
def isSnakeRun (r : List Char) : Bool :=
  let parts := jsSplitOnChar '_' r
  decide (parts.length = 2) && parts.all fun p => !p.isEmpty && p.all Char.isLower

/-- Full-run match of `/\b[A-Z]+_[A-Z]+\b/`. -/
def isConstRun (r : List Char) : Bool :=
  let parts := jsSplitOnChar '_' r
  decide (parts.length = 2) && parts.all fun p => !p.isEmpty && p.all Char.isUpper

/-- `VerifierAgent.extractTechnicalTerms`: the four token-shape patterns,
concatenated and de-duplicated (`[...new Set(terms)]`). -/
def extractTechnicalTerms (text : List Char) : List (List Char) :=
  let runs := wordRuns text
  ((runs.filter isUpperCamelRun) ++ (runs.filter isLowerCamelRun) ++
    (runs.filter isSnakeRun) ++ (runs.filter isConstRun)).dedup

def oppositePairs : List (List Char × List Char) :=
  [("true".data, "false".data), ("yes".data, "no".data), ("can".data, "cannot".data),
    ("will".data, "will not".data), ("is".data, "is not".data)]

/-- `VerifierAgent.findContradictions`. -/
def findContradictions (response : List Char) (context : List (List Char)) : ℕ :=
  let responseText := lowerChars response
  let contextText := lowerChars (List.intercalate " ".data context)
  oppositePairs.foldl (fun acc p =>
    let acc1 := if containsSub p.1 responseText && containsSub p.2 contextText
      then acc + 1 else acc
    if containsSub p.2 responseText && containsSub p.1 contextText then acc1 + 1 else acc1) 0

/-- `VerifierAgent.checkConsistency`. -/
def checkConsistency (response : List Char) (context : List (List Char)) : ℚ :=
  if context = [] then 8/10
  else
    let contextTerms := extractTechnicalTerms (List.intercalate " ".data context)
    let responseTerms := extractTechnicalTerms response
    let commonTerms := contextTerms.filter fun t => responseTerms.contains t
    let terminologyConsistency : ℚ :=
      (commonTerms.length : ℚ) / ((max contextTerms.length 1 : ℕ) : ℚ)
    let c1 := 1/2 + terminologyConsistency * (4/10)
    let c2 := c1 - (findContradictions response context : ℚ) * (1/10)
    max (min c2 (19/20)) (3/10)

/-- The fixed weights `[0.25, 0.25, 0.2, 0.15, 0.15]`. -/
def calculateOverallConfidence (rel acc comp code cons : ℚ) : ℚ :=
  rel * (25/100) + acc * (25/100) + comp * (2/10) + code * (15/100) + cons * (15/100)

structure VerifyResult where
  success : Bool
  originalResponse : List Char
  finalResponse : List Char
  relevance : ℚ
  accuracy : ℚ
  completeness : ℚ
  codeValidity : ℚ
  consistency : ℚ
  overallConfidence : ℚ
  issues : List String
  improved : Bool
  improveCalls : ℕ

/-- The overall weighted confidence computed inside `verifyResponse`. -/
def verifyOverall (query response : List Char) (context : List (List Char)) : ℚ :=
  calculateOverallConfidence (checkResponseRelevance query response)
    (checkFactualAccuracy response context) (checkCompleteness query response)
    (checkCodeValidity response) (checkConsistency response context)

/-- The issue list assembled inside `verifyResponse`: one fixed message per
check whose confidence is below 0.7, in source order. -/
def verifyIssues (query response : List Char) (context : List (List Char)) : List String :=
  (if checkResponseRelevance query response < 7/10
    then ["Response may not fully address the question"] else []) ++
  (if checkFactualAccuracy response context < 7/10
    then ["Some information may be inaccurate"] else []) ++
  (if checkCompleteness query response < 7/10
    then ["Response may be incomplete"] else []) ++
  (if checkCodeValidity response < 7/10
    then ["Code examples may have issues"] else []) ++
  (if checkConsistency response context < 7/10
    then ["Response may be inconsistent with context"] else [])

/-- The gate for the single improvement attempt:
`needsImprovement && issues.length > 0`. -/
def verifyCallsImprove (query response : List Char) (context : List (List Char)) : Bool :=
  decide (verifyOverall query response context < 7/10) &&
    !(verifyIssues query response context).isEmpty

/-- `VerifierAgent.verifyResponse`.  `improveOracle` is the outcome of the
(at most one) improvement LLM call: `none` when `improveResponse` fails or
returns no text (`data.response || null`), `some s` when it returns text
`s`.  `improveCalls` records how many times the oracle was consulted. -/
def verifyResponse (improveOracle : Option (List Char)) (query response : List Char)
    (context : List (List Char)) : VerifyResult :=
  let finalResponse := if verifyCallsImprove query response context then
      (match improveOracle with
        | some s => s
        | none => response)
    else response
  { success := true
    originalResponse := response
    finalResponse := finalResponse
    relevance := checkResponseRelevance query response
    accuracy := checkFactualAccuracy response context
    completeness := checkCompleteness query response
    codeValidity := checkCodeValidity response
    consistency := checkConsistency response context
    overallConfidence := verifyOverall query response context
    issues := verifyIssues query response context
    improved := finalResponse != response
    improveCalls := if verifyCallsImprove query response context then 1 else 0 }

/-- The spec's scenario answer: a single fenced code block whose braces are
unbalanced (`function f() { return 1;`). -/
def unbalancedAnswer : List Char := "```\nfunction f() \x7b return 1;\n```".data

/-- Claim C8 (as stated) is false: on the scenario answer the code returns
`max(0/1, 0.3) = 0.3`, not the fraction `0` of valid code blocks — the
source floors the score at 0.3 (`Math.max(confidence, 0.3)`). -/
theorem checkCodeValidity_counterexample :
    checkCodeValidity unbalancedAnswer = 3/10 ∧
    claimedCodeValidity unbalancedAnswer = 0 ∧
    checkCodeValidity unbalancedAnswer ≠ claimedCodeValidity unbalancedAnswer := by
  have hblocks : codeBlockMatches unbalancedAnswer = [unbalancedAnswer] := by decide
  have hfil : List.filter
      (fun b => checkMatchingBraces (stripFence b) && checkBasicSyntax (stripFence b))
      [unbalancedAnswer] = [] := by decide
  have h1 : checkCodeValidity unbalancedAnswer = 3/10 := by
    simp only [checkCodeValidity, hblocks, hfil]
    norm_num [max_def]
  have h2 : claimedCodeValidity unbalancedAnswer = 0 := by
    simp only [claimedCodeValidity, hblocks, hfil]
    norm_num
  exact ⟨h1, h2, by rw [h1, h2]; norm_num⟩

/-- Claim C8, amended: with no fenced code blocks the score is exactly 0.8;
otherwise it is the fraction of balanced code blocks **floored at 0.3**
(`max(fraction, 0.3)`).  The scenario still holds: the unbalanced block
scores 0.3 < 0.8 and "Code examples may have issues" appears in the issues
list of `verifyResponse`. -/
theorem checkCodeValidity_amended (response q : List Char) (oracle : Option (List Char)) :
    (codeBlockMatches response = [] → checkCodeValidity response = 8/10) ∧
    (codeBlockMatches response ≠ [] →
      checkCodeValidity response = max (claimedCodeValidity response) (3/10)) ∧
    checkCodeValidity unbalancedAnswer = 3/10 ∧
    checkCodeValidity unbalancedAnswer < 8/10 ∧
    "Code examples may have issues" ∈ (verifyResponse oracle q unbalancedAnswer []).issues := by
  have hval : checkCodeValidity unbalancedAnswer = 3/10 :=
    checkCodeValidity_counterexample.1
  refine ⟨?_, ?_, hval, by rw [hval]; norm_num, ?_⟩
  · intro hb
    by_cases hi : inlineCodeMatches response = []
    · simp [checkCodeValidity, hb, hi]
    · simp only [checkCodeValidity, hb]
      simp [hi]
      norm_num [max_def]
  · intro hb
    have hlen : codeBlockMatches response ≠ [] := hb
    have hlen0 : ¬ ((codeBlockMatches response).length = 0) := by
      simpa [List.length_eq_zero] using hlen
    simp only [checkCodeValidity, claimedCodeValidity, hlen0]
    simp [hlen0, Nat.pos_of_ne_zero hlen0]
  · have h310 : checkCodeValidity unbalancedAnswer < 7/10 := by rw [hval]; norm_num
    show _ ∈ verifyIssues q unbalancedAnswer []
    simp only [verifyIssues, List.mem_append]
    refine Or.inl (Or.inr ?_)
    simp [h310]

/-- Witness for the amended C8: the second implication discharged at the
scenario answer itself. -/
theorem checkCodeValidity_amended_witness :
    (codeBlockMatches unbalancedAnswer ≠ []) ∧
    checkCodeValidity unbalancedAnswer = max (claimedCodeValidity unbalancedAnswer) (3/10) ∧
    "Code examples may have issues" ∈ (verifyResponse none "q".data unbalancedAnswer []).issues :=
  ⟨by decide,
    (checkCodeValidity_amended unbalancedAnswer "q".data none).2.1 (by decide),
    (checkCodeValidity_amended unbalancedAnswer "q".data none).2.2.2.2⟩

/-- Claim C9: the improvement call happens at most once, and only when the
overall weighted confidence is below 0.7 with a non-empty issue list; if the
improvement call fails (`oracle = none`), verification still succeeds and the
final answer is the original answer unmodified. -/
theorem verifyResponse_improve_once (oracle : Option (List Char)) (query response : List Char)
    (context : List (List Char)) :
    (verifyResponse oracle query response context).improveCalls ≤ 1 ∧
    (verifyResponse oracle query response context).success = true ∧
    ((verifyResponse oracle query response context).improveCalls = 1 →
      (verifyResponse oracle query response context).overallConfidence < 7/10 ∧
      (verifyResponse oracle query response context).issues ≠ []) ∧
    (oracle = none → (verifyResponse oracle query response context).finalResponse = response) := by
  by_cases hc : verifyCallsImprove query response context = true
  · have hc' := hc
    rw [verifyCallsImprove, Bool.and_eq_true] at hc'
    refine ⟨?_, rfl, ?_, ?_⟩
    · show (if verifyCallsImprove query response context then 1 else 0) ≤ 1
      rw [if_pos hc]
    · intro _
      exact ⟨of_decide_eq_true hc'.1, by simpa using hc'.2⟩
    · rintro rfl
      show (if verifyCallsImprove query response context then _ else response) = response
      rw [if_pos hc]
  · refine ⟨?_, rfl, ?_, ?_⟩
    · show (if verifyCallsImprove query response context then 1 else 0) ≤ 1
      rw [if_neg hc]
      norm_num
    · intro h1
      have h0 : (verifyResponse oracle query response context).improveCalls = 0 := by
        show (if verifyCallsImprove query response context then 1 else 0) = 0
        rw [if_neg hc]
      rw [h0] at h1
      norm_num at h1
    · rintro rfl
      show (if verifyCallsImprove query response context then _ else response) = response
      rw [if_neg hc]

/-- Witness for C9 at concrete inputs: a failed improvement call
(`oracle = none`) keeps the original answer. -/
theorem verifyResponse_improve_once_witness :
    (verifyResponse none "q".data "a".data []).improveCalls ≤ 1 ∧
    (verifyResponse none "q".data "a".data []).success = true ∧
    (verifyResponse none "q".data "a".data []).finalResponse = "a".data :=
  ⟨(verifyResponse_improve_once none "q".data "a".data []).1,
    (verifyResponse_improve_once none "q".data "a".data []).2.1,
    (verifyResponse_improve_once none "q".data "a".data []).2.2.2 rfl⟩

/-! ### Vector arithmetic (`cosineSimilarity` in `useVectorStore.ts`) and the
Context Fetcher's relevance/confidence heuristics (`ContextFetcherAgent.ts`) -/

def sumSq (v : List ℝ) : ℝ := (List.map (fun x => x * x) v).sum

def dotList (a b : List ℝ) : ℝ := (List.zipWith (fun x y => x * y) a b).sum

/-- `cosineSimilarity(a, b) = dot / (magA * magB)` — no clamping and no
zero-magnitude guard in the store's version. -/
noncomputable def cosineSimilarity (a b : List ℝ) : ℝ :=
  dotList a b / (Real.sqrt (sumSq a) * Real.sqrt (sumSq b))

theorem sumSq_nonneg (v : List ℝ) : 0 ≤ sumSq v := by
  induction v with
  | nil => simp [sumSq]
  | cons x xs ih =>
    simp only [sumSq, List.map_cons, List.sum_cons]
    have := mul_self_nonneg x
    simp only [sumSq] at ih
    linarith

theorem cs_step (x y D A B : ℝ) (hA0 : 0 ≤ A) (hB0 : 0 ≤ B) (ihy : D^2 ≤ A * B) :
    (x * y + D)^2 ≤ (x * x + A) * (y * y + B) := by
  set u := Real.sqrt A with hu'
  set v := Real.sqrt B with hv'
  have h1 : u^2 = A := Real.sq_sqrt hA0
  have h2 : v^2 = B := Real.sq_sqrt hB0
  have hu : 0 ≤ u := Real.sqrt_nonneg A
  have hv : 0 ≤ v := Real.sqrt_nonneg B
  have huv : 0 ≤ u * v := mul_nonneg hu hv
  have hD1 : D ≤ u * v := by nlinarith [ihy, h1, h2, huv]
  have hD2 : -(u * v) ≤ D := by nlinarith [ihy, h1, h2, huv]
  rcases le_or_lt 0 (x * y) with hxy | hxy
  · have e1 : 2*(x*y)*D ≤ 2*(x*y)*(u*v) := by nlinarith [hD1, hxy]
    have e2 : 2*(x*y)*(u*v) ≤ x^2*v^2 + y^2*u^2 := by nlinarith [sq_nonneg (x*v - y*u)]
    nlinarith [ihy, h1, h2, e1, e2]
  · have e1 : 2*(x*y)*D ≤ 2*(x*y)*(-(u*v)) := by nlinarith [hD2, hxy]
    have e2 : 2*(x*y)*(-(u*v)) ≤ x^2*v^2 + y^2*u^2 := by nlinarith [sq_nonneg (x*v + y*u)]
    nlinarith [ihy, h1, h2, e1, e2]

/-- Cauchy–Schwarz for the store's `dot`/`magnitude` computations. -/
theorem dot_sq_le (a b : List ℝ) : (dotList a b)^2 ≤ sumSq a * sumSq b := by
  induction a generalizing b with
  | nil => simp [dotList, sumSq]
  | cons x xs ih =>
    cases b with
    | nil => simp [dotList, sumSq]
    | cons y ys =>
      simp only [dotList, sumSq, List.zipWith_cons_cons, List.map_cons, List.sum_cons]
      have ihy := ih ys
      simp only [dotList, sumSq] at ihy
      exact cs_step x y _ _ _ (by simpa [sumSq] using sumSq_nonneg xs)
        (by simpa [sumSq] using sumSq_nonneg ys) (by nlinarith [ihy])

/-- Cosine similarity of vectors of positive squared magnitude lies in
the interval from -1 to 1. -/
theorem cosine_bounds (a b : List ℝ) (ha : 0 < sumSq a) (hb : 0 < sumSq b) :
    -1 ≤ cosineSimilarity a b ∧ cosineSimilarity a b ≤ 1 := by
  have hdenom : 0 < Real.sqrt (sumSq a) * Real.sqrt (sumSq b) :=
    mul_pos (Real.sqrt_pos.mpr ha) (Real.sqrt_pos.mpr hb)
  have habs : |dotList a b| ≤ Real.sqrt (sumSq a) * Real.sqrt (sumSq b) := by
    have h1 : |dotList a b| = Real.sqrt ((dotList a b)^2) := (Real.sqrt_sq_eq_abs _).symm
    rw [h1]
    calc Real.sqrt ((dotList a b)^2) ≤ Real.sqrt (sumSq a * sumSq b) :=
          Real.sqrt_le_sqrt (dot_sq_le a b)
      _ = Real.sqrt (sumSq a) * Real.sqrt (sumSq b) :=
          Real.sqrt_mul (sumSq_nonneg a) _
  have hcos : |cosineSimilarity a b| ≤ 1 := by
    rw [cosineSimilarity, abs_div, abs_of_pos hdenom]
    exact div_le_one_of_le₀ habs (le_of_lt hdenom)
  exact abs_le.mp hcos

/-- `ContextChunk` as parsed by the Context Fetcher. -/
structure ContextChunk where
  content : List Char
  filename : List Char
  lineStart : ℕ
  lineEnd : ℕ
  relevanceScore : ℚ

/-- The keyword-matching part of `calculateRelevanceScore`: base 0.5 plus
0.3 × (fraction of query words substring-matched in content). -/
def relevanceBase (chunk : ContextChunk) (query : List Char) : ℚ :=
  let queryWords := jsSplitWS (lowerChars query)
  let contentWords := jsSplitWS (lowerChars chunk.content)
  let matchingWords := queryWords.filter fun word =>
    contentWords.any fun cw => containsSub word cw || containsSub cw word
  1/2 + ((matchingWords.length : ℚ) / ((queryWords.length : ℕ) : ℚ)) * (3/10)

/-- `ContextFetcherAgent.calculateRelevanceScore`. -/
def calculateRelevanceScore (chunk : ContextChunk) (query : List Char) : ℚ :=
  let queryLower := lowerChars query
  let contentLower := lowerChars chunk.content
  let filenameLower := lowerChars chunk.filename
  let s1 := relevanceBase chunk query
  let s2 := if (jsSplitWS queryLower).any (fun word => containsSub word filenameLower)
    then s1 + 2/10 else s1
  let s3 := if containsSub "function".data contentLower || containsSub "class".data contentLower
      || containsSub "const".data contentLower then s2 + 1/10 else s2
  let s4 := if (containsSub "error".data queryLower || containsSub "bug".data queryLower)
      && (containsSub "try".data contentLower || containsSub "catch".data contentLower
        || containsSub "error".data contentLower)
    then s3 + 2/10 else s3
  min s4 1

theorem relevanceBase_nonneg (chunk : ContextChunk) (query : List Char) :
    0 ≤ relevanceBase chunk query := by
  simp only [relevanceBase]
  positivity

/-- `ContextFetcherAgent.calculateConfidence`:
`min(0.7 × meanRelevance + 0.3 × (distinctFilenames / totalChunks), 1)`. -/
def calculateConfidence (chunks : List ContextChunk) : ℚ :=
  if chunks.length = 0 then 0
  else
    let avgRelevance := (List.map (fun c : ContextChunk => c.relevanceScore) chunks).sum
      / (chunks.length : ℚ)
    let diversityScore : ℚ :=
      (((List.map (fun c : ContextChunk => c.filename) chunks).dedup).length : ℚ)
        / (chunks.length : ℚ)
    min (avgRelevance * (7/10) + diversityScore * (3/10)) 1

theorem list_sum_le_length (l : List ℚ) (h : ∀ x ∈ l, x ≤ 1) : l.sum ≤ l.length := by
  induction l with
  | nil => simp
  | cons a l ih =>
    simp only [List.sum_cons, List.length_cons]
    have h1 := h a (List.mem_cons_self _ _)
    have h2 := ih fun x hx => h x (List.mem_cons_of_mem _ hx)
    push_cast
    push_cast at h2
    linarith

/-! ### Orchestrator (`AgentManager.processUserQuery`)

The five stages are sequenced; each stage outcome (`Except String α`) is an
oracle argument — `Except.error e` models the awaited stage expression
throwing with message `e`.  The trace models the `agentTrace` array (the
`result`/`timestamp` payloads of entries are omitted; `agent`, `status` and
`error` are kept).  On a throw, the catch block appends a
`{agent:'system', status:'error'}` entry and builds the degraded response
from `agentTrace[agentTrace.length - 1]?.agent || 'unknown'` — which, having
just pushed the error entry, is always `'system'`. -/

inductive TraceStatus where
  | starting
  | completed
  | error
deriving DecidableEq, Repr

structure TraceEntry where
  agent : String
  status : TraceStatus
  errorMsg : Option String
deriving DecidableEq, Repr

structure PipelineResult where
  response : String
  context : List String
  tools : List String
  enhancedQueries : List String
  agentTrace : List TraceEntry
deriving DecidableEq, Repr

/-- The outcomes of the five awaited stage expressions, in pipeline order:
enhanced queries, context, manager plan (its tool list), QA answer, and the
verifier (`some s` = a final response string, `none` = a falsy
`finalResponse`, so `answer.data` is used). -/
structure StageOutcomes where
  queries : Except String (List String)
  context : Except String (List String)
  manager : Except String (List String)
  qa : Except String String
  verifier : Except String (Option String)

/-- The degraded apology message built in the catch block, naming
`lastAgent` — the agent of the last trace entry. -/
def degradedMessage (selectedModel selectedEmbeddingModel lastAgent : String) : String :=
  "I encountered an error while processing your request. The agent system failed at: "
    ++ lastAgent ++ ". Please ensure both your LLM model (" ++ selectedModel
    ++ ") and embedding model (" ++ selectedEmbeddingModel ++ ") are available in Ollama."

/-- The catch block: push the `system` error entry, then build the degraded
response naming the agent of the (just-pushed) last trace entry. -/
def catchClause (selectedModel selectedEmbeddingModel query : String)
    (trace : List TraceEntry) (e : String) : PipelineResult :=
  let trace' := trace ++ [⟨"system", TraceStatus.error, some e⟩]
  { response := degradedMessage selectedModel selectedEmbeddingModel
      (match trace'.getLast? with
        | some en => en.agent
        | none => "unknown")
    context := []
    tools := []
    enhancedQueries := [query]
    agentTrace := trace' }

def startEntry (agent : String) : TraceEntry := ⟨agent, TraceStatus.starting, none⟩

def doneEntry (agent : String) : TraceEntry := ⟨agent, TraceStatus.completed, none⟩

/-- `AgentManager.processUserQuery`. -/
def processUserQuery (selectedModel selectedEmbeddingModel query : String)
    (st : StageOutcomes) : PipelineResult :=
  let t1 := [startEntry "queries"]
  match st.queries with
  | .error e => catchClause selectedModel selectedEmbeddingModel query t1 e
  | .ok enhancedQueries =>
    let t2 := t1 ++ [doneEntry "queries", startEntry "context"]
    match st.context with
    | .error e => catchClause selectedModel selectedEmbeddingModel query t2 e
    | .ok context =>
      let t3 := t2 ++ [doneEntry "context", startEntry "manager"]
      match st.manager with
      | .error e => catchClause selectedModel selectedEmbeddingModel query t3 e
      | .ok tools =>
        let t4 := t3 ++ [doneEntry "manager", startEntry "qa"]
        match st.qa with
        | .error e => catchClause selectedModel selectedEmbeddingModel query t4 e
        | .ok answer =>
          let t5 := t4 ++ [doneEntry "qa", startEntry "verifier"]
          match st.verifier with
          | .error e => catchClause selectedModel selectedEmbeddingModel query t5 e
          | .ok finalResponse =>
            let t6 := t5 ++ [doneEntry "verifier"]
            { response := match finalResponse with
                | some s => s
                | none => answer
              context := context
              tools := tools
              enhancedQueries := enhancedQueries
              agentTrace := t6 }

/-- The first failing stage (index and message), scanning in pipeline
order. -/
def firstError (st : StageOutcomes) : Option (ℕ × String) :=
  match st.queries with
  | .error e => some (0, e)
  | .ok _ =>
    match st.context with
    | .error e => some (1, e)
    | .ok _ =>
      match st.manager with
      | .error e => some (2, e)
      | .ok _ =>
        match st.qa with
        | .error e => some (3, e)
        | .ok _ =>
          match st.verifier with
          | .error e => some (4, e)
          | .ok _ => none

def stageNames : List String := ["queries", "context", "manager", "qa", "verifier"]

theorem catchClause_spec (sm em q : String) (trace : List TraceEntry) (e : String) :
    (catchClause sm em q trace e).context = [] ∧
    (catchClause sm em q trace e).tools = [] ∧
    (catchClause sm em q trace e).enhancedQueries = [q] ∧
    (catchClause sm em q trace e).agentTrace = trace ++ [⟨"system", TraceStatus.error, some e⟩] ∧
    (catchClause sm em q trace e).agentTrace.getLast? =
      some ⟨"system", TraceStatus.error, some e⟩ ∧
    (catchClause sm em q trace e).response = degradedMessage sm em "system" := by
  have hlast : (trace ++ [(⟨"system", TraceStatus.error, some e⟩ : TraceEntry)]).getLast? =
      some ⟨"system", TraceStatus.error, some e⟩ := List.getLast?_concat _
  refine ⟨rfl, rfl, rfl, rfl, hlast, ?_⟩
  simp only [catchClause, hlast]

theorem trace_entries_ok (q' : List TraceEntry) (e : String) (names : List String)
    (h1 : ∀ en ∈ q', en.status ≠ TraceStatus.error)
    (h2 : ∀ en ∈ q', en.agent ∈ names) :
    (∀ en ∈ q' ++ [(⟨"system", TraceStatus.error, some e⟩ : TraceEntry)],
      en.status = TraceStatus.error → en.agent = "system") ∧
    (∀ en ∈ q' ++ [(⟨"system", TraceStatus.error, some e⟩ : TraceEntry)],
      en.agent = "system" ∨ en.agent ∈ names) := by
  constructor <;> intro en hen <;> rcases List.mem_append.mp hen with hm | hm
  · intro hst
    exact absurd hst (h1 en hm)
  · simp only [List.mem_singleton] at hm
    subst hm
    intro _
    rfl
  · exact Or.inr (h2 en hm)
  · simp only [List.mem_singleton] at hm
    subst hm
    exact Or.inl rfl

/-- Claim C3, amended: when a stage throws, the remaining stages are
aborted and the degraded response has empty context and tools and the
original query as the sole enhanced query, and the trace has no entries for
subsequent stages; but the appended error entry is tagged with the generic
agent `"system"` (not the failed stage), and — because the catch block reads
the last trace entry *after* pushing that error entry — the apology message
always names `"system"` rather than the stage that failed. -/
theorem processUserQuery_degraded (sm em q : String) (st : StageOutcomes) (i : ℕ) (e : String)
    (h : firstError st = some (i, e)) :
    (processUserQuery sm em q st).context = [] ∧
    (processUserQuery sm em q st).tools = [] ∧
    (processUserQuery sm em q st).enhancedQueries = [q] ∧
    (processUserQuery sm em q st).agentTrace.getLast? =
      some ⟨"system", TraceStatus.error, some e⟩ ∧
    (∀ en ∈ (processUserQuery sm em q st).agentTrace,
      en.status = TraceStatus.error → en.agent = "system") ∧
    (∀ en ∈ (processUserQuery sm em q st).agentTrace,
      en.agent = "system" ∨ en.agent ∈ stageNames.take (i + 1)) ∧
    (processUserQuery sm em q st).response = degradedMessage sm em "system" := by
  obtain ⟨sq, sc, sman, sa, sv⟩ := st
  cases sq with
  | error e0 =>
    simp only [firstError, Option.some.injEq, Prod.mk.injEq] at h
    obtain ⟨rfl, rfl⟩ := h
    obtain ⟨g1, g2, g3, g4, g5, g6⟩ :=
      catchClause_spec sm em q [startEntry "queries"] e0
    have tr := trace_entries_ok [startEntry "queries"] e0 (stageNames.take 1)
      (by decide) (by decide)
    exact ⟨g1, g2, g3, g5, tr.1, tr.2, g6⟩
  | ok vq =>
    cases sc with
    | error e0 =>
      simp only [firstError, Option.some.injEq, Prod.mk.injEq] at h
      obtain ⟨rfl, rfl⟩ := h
      obtain ⟨g1, g2, g3, g4, g5, g6⟩ := catchClause_spec sm em q
        [startEntry "queries", doneEntry "queries", startEntry "context"] e0
      have tr := trace_entries_ok
        [startEntry "queries", doneEntry "queries", startEntry "context"] e0
        (stageNames.take 2) (by decide) (by decide)
      exact ⟨g1, g2, g3, g5, tr.1, tr.2, g6⟩
    | ok vc =>
      cases sman with
      | error e0 =>
        simp only [firstError, Option.some.injEq, Prod.mk.injEq] at h
        obtain ⟨rfl, rfl⟩ := h
        obtain ⟨g1, g2, g3, g4, g5, g6⟩ := catchClause_spec sm em q
          [startEntry "queries", doneEntry "queries", startEntry "context",
            doneEntry "context", startEntry "manager"] e0
        have tr := trace_entries_ok
          [startEntry "queries", doneEntry "queries", startEntry "context",
            doneEntry "context", startEntry "manager"] e0
          (stageNames.take 3) (by decide) (by decide)
        exact ⟨g1, g2, g3, g5, tr.1, tr.2, g6⟩
      | ok vm =>
        cases sa with
        | error e0 =>
          simp only [firstError, Option.some.injEq, Prod.mk.injEq] at h
          obtain ⟨rfl, rfl⟩ := h
          obtain ⟨g1, g2, g3, g4, g5, g6⟩ := catchClause_spec sm em q
            [startEntry "queries", doneEntry "queries", startEntry "context",
              doneEntry "context", startEntry "manager", doneEntry "manager",
              startEntry "qa"] e0
          have tr := trace_entries_ok
            [startEntry "queries", doneEntry "queries", startEntry "context",
              doneEntry "context", startEntry "manager", doneEntry "manager",
              startEntry "qa"] e0
            (stageNames.take 4) (by decide) (by decide)
          exact ⟨g1, g2, g3, g5, tr.1, tr.2, g6⟩
        | ok va =>
          cases sv with
          | error e0 =>
            simp only [firstError, Option.some.injEq, Prod.mk.injEq] at h
            obtain ⟨rfl, rfl⟩ := h
            obtain ⟨g1, g2, g3, g4, g5, g6⟩ := catchClause_spec sm em q
              [startEntry "queries", doneEntry "queries", startEntry "context",
                doneEntry "context", startEntry "manager", doneEntry "manager",
                startEntry "qa", doneEntry "qa", startEntry "verifier"] e0
            have tr := trace_entries_ok
              [startEntry "queries", doneEntry "queries", startEntry "context",
                doneEntry "context", startEntry "manager", doneEntry "manager",
                startEntry "qa", doneEntry "qa", startEntry "verifier"] e0
              (stageNames.take 5) (by decide) (by decide)
            exact ⟨g1, g2, g3, g5, tr.1, tr.2, g6⟩
          | ok vv =>
            simp only [firstError] at h
            exact absurd h (by simp)

/-- A concrete pipeline run whose context stage throws. -/
def stContextThrows : StageOutcomes :=
  { queries := Except.ok ["q"], context := Except.error "boom",
    manager := Except.ok [], qa := Except.ok "a", verifier := Except.ok none }

/-- Claim C3 (as stated) is false at a concrete input: when the context
stage throws, the trace's error entry is tagged `"system"` — there is no
error entry for the failed stage `"context"` — and the degraded answer text
names `"system"`, not the stage that failed. -/
theorem processUserQuery_counterexample :
    (processUserQuery "m" "e" "q" stContextThrows).agentTrace =
      [startEntry "queries", doneEntry "queries", startEntry "context",
        ⟨"system", TraceStatus.error, some "boom"⟩] ∧
    (∀ en ∈ (processUserQuery "m" "e" "q" stContextThrows).agentTrace,
      ¬ (en.status = TraceStatus.error ∧ en.agent = "context")) ∧
    (processUserQuery "m" "e" "q" stContextThrows).response =
      degradedMessage "m" "e" "system" ∧
    (processUserQuery "m" "e" "q" stContextThrows).response ≠
      degradedMessage "m" "e" "context" := by
  refine ⟨rfl, by decide, rfl, by decide⟩

/-- Witness for the amended C3 at the same concrete input. -/
theorem processUserQuery_degraded_witness :
    (firstError stContextThrows = some (1, "boom")) ∧
    (processUserQuery "m" "e" "q" stContextThrows).enhancedQueries = ["q"] ∧
    (processUserQuery "m" "e" "q" stContextThrows).response =
      degradedMessage "m" "e" "system" :=
  ⟨rfl, (processUserQuery_degraded "m" "e" "q" stContextThrows 1 "boom" rfl).2.2.1,
    (processUserQuery_degraded "m" "e" "q" stContextThrows 1 "boom" rfl).2.2.2.2.2.2⟩

/-! ### Agent task dispatch (`execute` in each agent class)

Each agent's `execute` is `try { switch (task.type) { ... default: throw
new Error('Unknown task type: ' + task.type) } } catch (e) { return
{ success: false, data: <null or []>, error: e.message } }`.  The handlers
are effectful, so they are an oracle returning either a response or a thrown
message. -/

structure AgentTask where
  type : String

inductive AgentData where
  | null
  | strList (xs : List String)
  | payload (s : String)
deriving DecidableEq

structure AgentResponse where
  success : Bool
  data : AgentData
  error : Option String
deriving DecidableEq

inductive TaskOutcome where
  | ok (r : AgentResponse)
  | thrown (msg : String)

/-- The shared `execute` shape: dispatch on `task.type`, throw on unknown
types, convert any thrown message into a failure response carrying the
agent's catch-payload `failData`. -/
def agentExecute (handledCases : List String) (failData : AgentData)
    (handler : AgentTask → TaskOutcome) (task : AgentTask) : AgentResponse :=
  match (if task.type ∈ handledCases then handler task
    else TaskOutcome.thrown ("Unknown task type: " ++ task.type)) with
  | .ok r => r
  | .thrown msg => { success := false, data := failData, error := some msg }

def embeddingAgentCases : List String :=
  ["generate_embedding", "batch_embed", "calculate_similarity", "optimize_embedding"]

def verifierAgentCases : List String :=
  ["verify_response", "check_accuracy", "assess_completeness", "validate_code"]

def managerAgentCases : List String :=
  ["analyze_and_plan", "select_tools", "coordinate_agents"]

def queriesAgentCases : List String :=
  ["generate_queries", "expand_query", "analyze_intent"]

/-- `EmbeddingAgent.execute` (catch returns `data: null`). -/
def embeddingAgentExecute : (AgentTask → TaskOutcome) → AgentTask → AgentResponse :=
  agentExecute embeddingAgentCases AgentData.null

/-- `VerifierAgent.execute` (catch returns `data: null`). -/
def verifierAgentExecute : (AgentTask → TaskOutcome) → AgentTask → AgentResponse :=
  agentExecute verifierAgentCases AgentData.null

/-- `ManagerAgent.execute` (catch returns `data: null`). -/
def managerAgentExecute : (AgentTask → TaskOutcome) → AgentTask → AgentResponse :=
  agentExecute managerAgentCases AgentData.null

/-- `EnhancedQueriesMakerAgent.execute` (catch returns `data: []`). -/
def queriesAgentExecute : (AgentTask → TaskOutcome) → AgentTask → AgentResponse :=
  agentExecute queriesAgentCases (AgentData.strList [])

/-- Claim C10: `execute` is total (the embedding is a function — no Lean
exception escapes).  For each of the four agents: a task whose type is not
among that agent's handled cases — regardless of what other agents handle —
yields `success = false`, that agent's null-or-empty catch data and the
non-empty error string `"Unknown task type: " ++ tag`; and on a handled
type, a handler that throws internally is converted into a failure response
carrying the thrown message, while a returning handler's response is passed
through. -/
theorem agentExecute_never_throws (handler : AgentTask → TaskOutcome) (t : AgentTask) :
    (t.type ∉ embeddingAgentCases → embeddingAgentExecute handler t =
      ⟨false, AgentData.null, some ("Unknown task type: " ++ t.type)⟩) ∧
    (t.type ∉ verifierAgentCases → verifierAgentExecute handler t =
      ⟨false, AgentData.null, some ("Unknown task type: " ++ t.type)⟩) ∧
    (t.type ∉ managerAgentCases → managerAgentExecute handler t =
      ⟨false, AgentData.null, some ("Unknown task type: " ++ t.type)⟩) ∧
    (t.type ∉ queriesAgentCases → queriesAgentExecute handler t =
      ⟨false, AgentData.strList [], some ("Unknown task type: " ++ t.type)⟩) ∧
    ("Unknown task type: " ++ t.type) ≠ "" ∧
    (∀ handledCases failData msg, t.type ∈ handledCases →
      handler t = TaskOutcome.thrown msg →
      agentExecute handledCases failData handler t = ⟨false, failData, some msg⟩) ∧
    (∀ handledCases failData r, t.type ∈ handledCases →
      handler t = TaskOutcome.ok r →
      agentExecute handledCases failData handler t = r) := by
  refine ⟨?_, ?_, ?_, ?_, ?_, ?_, ?_⟩
  · intro h1
    simp [embeddingAgentExecute, agentExecute, h1]
  · intro h2
    simp [verifierAgentExecute, agentExecute, h2]
  · intro h3
    simp [managerAgentExecute, agentExecute, h3]
  · intro h4
    simp [queriesAgentExecute, agentExecute, h4]
  · intro hstr
    have hd := congrArg String.data hstr
    rw [String.data_append] at hd
    have h0 := List.append_eq_nil.mp hd
    exact absurd h0.1 (by decide)
  · intro handledCases failData msg hin hmsg
    simp [agentExecute, hin, hmsg]
  · intro handledCases failData r hin hr
    simp [agentExecute, hin, hr]

/-- Witness for C10: the type `"verify_response"` is unknown to the
Embedding agent (though handled by the Verifier), so its `execute` returns
the unknown-type failure; the Verifier handles it, and an internally
throwing handler is converted into a failure response with the message. -/
theorem agentExecute_never_throws_witness :
    (("verify_response" : String) ∉ embeddingAgentCases) ∧
    embeddingAgentExecute (fun _ => TaskOutcome.thrown "x") ⟨"verify_response"⟩ =
      ⟨false, AgentData.null, some ("Unknown task type: " ++ "verify_response")⟩ ∧
    (("verify_response" : String) ∈ verifierAgentCases) ∧
    verifierAgentExecute (fun _ => TaskOutcome.thrown "x") ⟨"verify_response"⟩ =
      ⟨false, AgentData.null, some "x"⟩ :=
  ⟨by decide,
    (agentExecute_never_throws (fun _ => TaskOutcome.thrown "x")
      ⟨"verify_response"⟩).1 (by decide),
    by decide,
    (agentExecute_never_throws (fun _ => TaskOutcome.thrown "x")
      ⟨"verify_response"⟩).2.2.2.2.2.1 verifierAgentCases AgentData.null "x"
      (by decide) rfl⟩

/-! ### Vector Index multi-query search
(`searchWithEnhancedQueries` of the model-aware `useVectorStore`)

The store variant carrying `embeddingModel` on each record (the one whose
three-argument signature `searchWithEnhancedQueries(queries, topK,
embeddingModel)` matches the `ContextFetcherAgent` call site) filters the
corpus to records of the requested model, scores each compatible record
against each query (cosine similarity plus metadata relevance boost), keeps
per-id maxima above the 0.1 threshold in an insertion-ordered map, sorts
descending and truncates to `topK`.  `embedQ` is the embedding-endpoint
oracle giving each query's embedding vector. -/

structure VectorDoc where
  id : String
  content : String
  filename : String
  embeddingModel : String
  embedding : List ℝ
  functionNames : List String
  classNames : List String
  keywords : List String
  lineStart : ℕ
  lineEnd : ℕ

/-- `filename.replace(/\.[^/.]+$/, "")`: strip a final dot-extension. -/
def stripExtension (filename : List Char) : List Char :=
  let r := filename.reverse
  let ext := r.takeWhile fun c => ¬ (c = '.' ∨ c = '/')
  if ext.length < r.length ∧ r.get? ext.length = some '.' ∧ ¬ ext.isEmpty
  then ((r.drop (ext.length + 1)).reverse)
  else filename

/-- The additive metadata relevance boost of `searchWithEnhancedQueries`:
+0.2 function-name match, +0.2 class-name match, +0.1 keyword match,
+0.15 filename relevance. -/
def relevanceBoost (query : String) (d : VectorDoc) : ℚ :=
  let queryLower := lowerChars query.data
  let b1 : ℚ := if d.functionNames.any (fun fn => containsSub (lowerChars fn.data) queryLower)
    then 2/10 else 0
  let b2 : ℚ := if d.classNames.any (fun cn => containsSub (lowerChars cn.data) queryLower)
    then 2/10 else 0
  let b3 : ℚ := if d.keywords.any (fun kw => containsSub (lowerChars kw.data) queryLower)
    then 1/10 else 0
  let b4 : ℚ := if containsSub queryLower (lowerChars d.filename.data)
      || containsSub (stripExtension (lowerChars d.filename.data)) queryLower
    then 15/100 else 0
  b1 + b2 + b3 + b4

/-- `similarity + relevanceBoost` for one query and one record. -/
noncomputable def boostedScore (embedQ : String → List ℝ) (q : String) (d : VectorDoc) : ℝ :=
  cosineSimilarity (embedQ q) d.embedding + ((relevanceBoost q d : ℚ) : ℝ)

structure ScoredDoc where
  id : String
  content : String
  filename : String
  similarity : ℝ
  relevanceScore : ℚ
  lineStart : ℕ
  lineEnd : ℕ

noncomputable def scoreDoc (embedQ : String → List ℝ) (q : String) (d : VectorDoc) : ScoredDoc :=
  { id := d.id, content := d.content, filename := d.filename
    similarity := boostedScore embedQ q d, relevanceScore := relevanceBoost q d
    lineStart := d.lineStart, lineEnd := d.lineEnd }

structure ResultEntry where
  content : String
  filename : String
  maxSimilarity : ℝ
  relevanceScore : ℚ
  lineStart : ℕ
  lineEnd : ℕ

def entryOf (it : ScoredDoc) : ResultEntry :=
  { content := it.content, filename := it.filename, maxSimilarity := it.similarity
    relevanceScore := it.relevanceScore, lineStart := it.lineStart, lineEnd := it.lineEnd }

/-- The JS `Map<string, …>`: an insertion-ordered association list. -/
abbrev ResultMap := List (String × ResultEntry)

def lookupEntry : ResultMap → String → Option ResultEntry
  | [], _ => none
  | (k, v) :: rest, key => if k = key then some v else lookupEntry rest key

/-- `Map.set`: replace in place if present, else append. -/
def mapSet : ResultMap → String → ResultEntry → ResultMap
  | [], k, v => [(k, v)]
  | (k', v') :: rest, k, v =>
    if k' = k then (k', v) :: rest else (k', v') :: mapSet rest k v

/-- `!existing || item.similarity > existing.maxSimilarity`. -/
def keepNew (existing : Option ResultEntry) (sim : ℝ) : Prop :=
  match existing with
  | none => True
  | some ex => ex.maxSimilarity < sim

open Classical in
/-- One `similarities.forEach` step: insert if above the 0.1 threshold and
the id is absent or strictly beaten. -/
noncomputable def considerItem (m : ResultMap) (it : ScoredDoc) : ResultMap :=
  if 1/10 < it.similarity then
    if keepNew (lookupEntry m it.id) it.similarity then mapSet m it.id (entryOf it) else m
  else m

/-- The nested `for (query of queries) { … similarities.forEach(…) }`. -/
noncomputable def searchFold (embedQ : String → List ℝ) (docs : List VectorDoc)
    (queries : List String) : ResultMap :=
  queries.foldl (fun m q => (List.map (scoreDoc embedQ q) docs).foldl considerItem m) []

open Classical in
/-- Descending comparison on `maxSimilarity`
(`.sort((a, b) => b.maxSimilarity - a.maxSimilarity)`). -/
noncomputable def byScoreDesc (a b : String × ResultEntry) : Bool :=
  decide (b.2.maxSimilarity ≤ a.2.maxSimilarity)

/-- `searchWithEnhancedQueries` up to final string formatting: filter to the
requested model (returning empty when no compatible records exist),
accumulate per-id maxima, sort descending, truncate to `topK`. -/
noncomputable def searchRecords (embedQ : String → List ℝ) (docs : List VectorDoc)
    (queries : List String) (topK : ℕ) (model : String) : ResultMap :=
  let compatibleDocs := docs.filter fun d => d.embeddingModel = model
  if compatibleDocs.isEmpty then []
  else ((searchFold embedQ compatibleDocs queries).mergeSort byScoreDesc).take topK

/-- The full `searchWithEnhancedQueries`: format each kept record as
`[filename:start-end]\ncontent`. -/
noncomputable def searchWithEnhancedQueries (embedQ : String → List ℝ) (docs : List VectorDoc)
    (queries : List String) (topK : ℕ) (model : String) : List String :=
  List.map (fun p : String × ResultEntry =>
      "[" ++ p.2.filename ++ ":" ++ toString p.2.lineStart ++ "-" ++ toString p.2.lineEnd
        ++ "]\n" ++ p.2.content)
    (searchRecords embedQ docs queries topK model)

theorem mapSet_mem (m : ResultMap) (k : String) (v : ResultEntry) :
    ∀ p ∈ mapSet m k v, p ∈ m ∨ p = (k, v) := by
  induction m with
  | nil =>
    intro p hp
    simp [mapSet] at hp
    exact Or.inr hp
  | cons kv rest ih =>
    intro p hp
    by_cases hk : kv.1 = k
    · simp only [mapSet] at hp
      rw [if_pos hk] at hp
      rcases List.mem_cons.mp hp with h | h
      · right
        rw [h, hk]
      · exact Or.inl (List.mem_cons_of_mem _ h)
    · simp only [mapSet] at hp
      rw [if_neg hk] at hp
      rcases List.mem_cons.mp hp with h | h
      · exact Or.inl (h ▸ List.mem_cons_self _ _)
      · rcases ih p h with h' | h'
        · exact Or.inl (List.mem_cons_of_mem _ h')
        · exact Or.inr h'

theorem mapSet_keys_mem (m : ResultMap) (k : String) (v : ResultEntry) (a : String) :
    a ∈ (mapSet m k v).map Prod.fst ↔ a ∈ m.map Prod.fst ∨ a = k := by
  induction m with
  | nil => simp [mapSet]
  | cons kv rest ih =>
    by_cases hk : kv.1 = k
    · simp only [mapSet]
      rw [if_pos hk]
      simp only [List.map_cons, List.mem_cons]
      constructor
      · rintro (h | h)
        · exact Or.inl (Or.inl h)
        · exact Or.inl (Or.inr h)
      · rintro ((h | h) | h)
        · exact Or.inl h
        · exact Or.inr h
        · exact Or.inl (h ▸ hk.symm)
    · simp only [mapSet]
      rw [if_neg hk]
      simp only [List.map_cons, List.mem_cons, ih]
      tauto

theorem mapSet_keys_nodup (m : ResultMap) (k : String) (v : ResultEntry)
    (h : (m.map Prod.fst).Nodup) : ((mapSet m k v).map Prod.fst).Nodup := by
  induction m with
  | nil => simp [mapSet]
  | cons kv rest ih =>
    simp only [List.map_cons, List.nodup_cons] at h
    by_cases hk : kv.1 = k
    · simp only [mapSet]
      rw [if_pos hk]
      simp only [List.map_cons, List.nodup_cons]
      exact ⟨hk ▸ h.1, h.2⟩
    · simp only [mapSet]
      rw [if_neg hk]
      simp only [List.map_cons, List.nodup_cons]
      refine ⟨?_, ih h.2⟩
      intro hmem
      rcases (mapSet_keys_mem rest k v kv.1).mp hmem with h' | h'
      · exact h.1 h'
      · exact hk h'

theorem lookupEntry_mapSet_eq (m : ResultMap) (k : String) (v : ResultEntry) :
    lookupEntry (mapSet m k v) k = some v := by
  induction m with
  | nil => simp [mapSet, lookupEntry]
  | cons kv rest ih =>
    by_cases hk : kv.1 = k
    · simp only [mapSet]
      rw [if_pos hk]
      simp [lookupEntry, hk]
    · simp only [mapSet]
      rw [if_neg hk]
      simp [lookupEntry, hk, ih]

theorem lookupEntry_mapSet_ne (m : ResultMap) (k k' : String) (v : ResultEntry)
    (hne : k' ≠ k) : lookupEntry (mapSet m k v) k' = lookupEntry m k' := by
  have hkk' : ¬ (k = k') := fun h => hne h.symm
  induction m with
  | nil => simp [mapSet, lookupEntry, hkk']
  | cons kv rest ih =>
    by_cases hk : kv.1 = k
    · simp only [mapSet]
      rw [if_pos hk]
      simp only [lookupEntry, hk]
      rw [if_neg hkk', if_neg hkk']
    · simp only [mapSet]
      rw [if_neg hk]
      by_cases hkv : kv.1 = k'
      · simp [lookupEntry, hkv]
      · simp [lookupEntry, hkv, ih]

/-- Combine an existing best score with a new candidate (strict replacement
keeps the maximum). -/
noncomputable def mergeOpt : Option ℝ → Option ℝ → Option ℝ
  | none, b => b
  | some a, none => some a
  | some a, some b => some (max a b)

theorem mergeOpt_none_right (a : Option ℝ) : mergeOpt a none = a := by
  cases a <;> rfl

theorem mergeOpt_assoc (a b c : Option ℝ) :
    mergeOpt (mergeOpt a b) c = mergeOpt a (mergeOpt b c) := by
  cases a <;> cases b <;> cases c <;> simp [mergeOpt, max_assoc]

open Classical in
/-- The score contributed by one scored item to the map entry of key `k`
(only if the item has that id and clears the 0.1 threshold). -/
noncomputable def qualOf (k : String) (it : ScoredDoc) : Option ℝ :=
  if it.id = k ∧ 1/10 < it.similarity then some it.similarity else none

/-- The best qualifying score for key `k` among a list of scored items. -/
noncomputable def bestScore (k : String) : List ScoredDoc → Option ℝ
  | [] => none
  | it :: rest => mergeOpt (qualOf k it) (bestScore k rest)

theorem considerItem_lookup (m : ResultMap) (it : ScoredDoc) (k : String) :
    (lookupEntry (considerItem m it) k).map ResultEntry.maxSimilarity =
      mergeOpt ((lookupEntry m k).map ResultEntry.maxSimilarity) (qualOf k it) := by
  by_cases hth : (1:ℝ)/10 < it.similarity
  · by_cases hid : it.id = k
    · subst hid
      rw [show qualOf it.id it = some it.similarity from if_pos ⟨rfl, hth⟩]
      cases hl : lookupEntry m it.id with
      | none =>
        have hkeepn : keepNew (lookupEntry m it.id) it.similarity := by
          rw [hl]
          trivial
        have hstep : considerItem m it = mapSet m it.id (entryOf it) := by
          simp only [considerItem]
          rw [if_pos hth, if_pos hkeepn]
        rw [hstep, lookupEntry_mapSet_eq]
        simp [mergeOpt, entryOf]
      | some ex =>
        by_cases hlt : ex.maxSimilarity < it.similarity
        · have hkeepn : keepNew (lookupEntry m it.id) it.similarity := by
            rw [hl]
            exact hlt
          have hstep : considerItem m it = mapSet m it.id (entryOf it) := by
            simp only [considerItem]
            rw [if_pos hth, if_pos hkeepn]
          rw [hstep, lookupEntry_mapSet_eq]
          simp [mergeOpt, entryOf, max_eq_right (le_of_lt hlt)]
        · have hkeepn : ¬ keepNew (lookupEntry m it.id) it.similarity := by
            rw [hl]
            exact hlt
          have hstep : considerItem m it = m := by
            simp only [considerItem]
            rw [if_pos hth, if_neg hkeepn]
          rw [hstep, hl]
          simp [mergeOpt, max_eq_left (le_of_not_lt hlt)]
    · rw [show qualOf k it = none from if_neg (fun h => hid h.1)]
      rw [mergeOpt_none_right]
      have hkne : k ≠ it.id := fun h => hid h.symm
      simp only [considerItem]
      rw [if_pos hth]
      by_cases hkeep : keepNew (lookupEntry m it.id) it.similarity
      · rw [if_pos hkeep, lookupEntry_mapSet_ne _ _ _ _ hkne]
      · rw [if_neg hkeep]
  · rw [show qualOf k it = none from if_neg (fun h => hth h.2)]
    rw [mergeOpt_none_right]
    simp only [considerItem]
    rw [if_neg hth]

theorem foldl_considerItem_lookup (items : List ScoredDoc) (m : ResultMap) (k : String) :
    (lookupEntry (items.foldl considerItem m) k).map ResultEntry.maxSimilarity =
      mergeOpt ((lookupEntry m k).map ResultEntry.maxSimilarity) (bestScore k items) := by
  induction items generalizing m with
  | nil => simp [bestScore, mergeOpt_none_right]
  | cons it rest ih =>
    simp only [List.foldl_cons, bestScore]
    rw [ih (considerItem m it), considerItem_lookup, mergeOpt_assoc]

theorem considerItem_mem (m : ResultMap) (it : ScoredDoc) :
    ∀ p ∈ considerItem m it, p ∈ m ∨ p = (it.id, entryOf it) := by
  intro p hp
  simp only [considerItem] at hp
  by_cases hth : (1:ℝ)/10 < it.similarity
  · rw [if_pos hth] at hp
    by_cases hkeep : keepNew (lookupEntry m it.id) it.similarity
    · rw [if_pos hkeep] at hp
      exact mapSet_mem m it.id (entryOf it) p hp
    · rw [if_neg hkeep] at hp
      exact Or.inl hp
  · rw [if_neg hth] at hp
    exact Or.inl hp

theorem considerItem_keys_nodup (m : ResultMap) (it : ScoredDoc)
    (h : (m.map Prod.fst).Nodup) : ((considerItem m it).map Prod.fst).Nodup := by
  simp only [considerItem]
  by_cases hth : (1:ℝ)/10 < it.similarity
  · rw [if_pos hth]
    by_cases hkeep : keepNew (lookupEntry m it.id) it.similarity
    · rw [if_pos hkeep]
      exact mapSet_keys_nodup m it.id (entryOf it) h
    · rw [if_neg hkeep]
      exact h
  · rw [if_neg hth]
    exact h

theorem foldl_considerItem_mem (items : List ScoredDoc) (m : ResultMap) :
    ∀ p ∈ items.foldl considerItem m, p ∈ m ∨ ∃ it ∈ items, p = (it.id, entryOf it) := by
  induction items generalizing m with
  | nil =>
    intro p hp
    exact Or.inl hp
  | cons it rest ih =>
    intro p hp
    simp only [List.foldl_cons] at hp
    rcases ih (considerItem m it) p hp with h | h
    · rcases considerItem_mem m it p h with h' | h'
      · exact Or.inl h'
      · exact Or.inr ⟨it, List.mem_cons_self _ _, h'⟩
    · obtain ⟨it', hit', hp'⟩ := h
      exact Or.inr ⟨it', List.mem_cons_of_mem _ hit', hp'⟩

theorem foldl_considerItem_nodup (items : List ScoredDoc) (m : ResultMap)
    (h : (m.map Prod.fst).Nodup) : ((items.foldl considerItem m).map Prod.fst).Nodup := by
  induction items generalizing m with
  | nil => exact h
  | cons it rest ih =>
    simp only [List.foldl_cons]
    exact ih _ (considerItem_keys_nodup m it h)

theorem bestScore_ne_none (k : String) (items : List ScoredDoc) (it : ScoredDoc)
    (hm : it ∈ items) (hid : it.id = k) (hth : (1:ℝ)/10 < it.similarity) :
    bestScore k items ≠ none := by
  induction items with
  | nil => exact absurd hm (List.not_mem_nil it)
  | cons r rs ihr =>
    intro hnone
    simp only [bestScore] at hnone
    rcases List.mem_cons.mp hm with hm' | hm'
    · subst hm'
      rw [show qualOf k it = some it.similarity from if_pos ⟨hid, hth⟩] at hnone
      cases hbr : bestScore k rs <;> rw [hbr] at hnone <;> simp [mergeOpt] at hnone
    · cases hq0 : qualOf k r <;> rw [hq0] at hnone
      · exact ihr hm' (by simpa [mergeOpt] using hnone)
      · cases hbr : bestScore k rs <;> rw [hbr] at hnone <;> simp [mergeOpt] at hnone

theorem bestScore_some_exists (k : String) (items : List ScoredDoc) :
    ∀ v, bestScore k items = some v →
      ∃ it ∈ items, it.id = k ∧ it.similarity = v ∧ (1:ℝ)/10 < v := by
  induction items with
  | nil => intro v h; simp [bestScore] at h
  | cons it rest ih =>
    intro v h
    simp only [bestScore] at h
    by_cases hq : it.id = k ∧ (1:ℝ)/10 < it.similarity
    · rw [show qualOf k it = some it.similarity from if_pos hq] at h
      cases hr : bestScore k rest with
      | none =>
        rw [hr] at h
        simp only [mergeOpt] at h
        injection h with h
        exact ⟨it, List.mem_cons_self _ _, hq.1, h, h ▸ hq.2⟩
      | some w =>
        rw [hr] at h
        simp only [mergeOpt] at h
        injection h with h
        rcases max_cases it.similarity w with ⟨hmax, _⟩ | ⟨hmax, _⟩
        · refine ⟨it, List.mem_cons_self _ _, hq.1, ?_, ?_⟩
          · rw [← h, hmax]
          · rw [← h, hmax]
            exact hq.2
        · obtain ⟨it', hit', hid', hsim', hth'⟩ := ih w hr
          have hvw : v = w := by rw [← h, hmax]
          exact ⟨it', List.mem_cons_of_mem _ hit', hid', by rw [hsim', hvw], hvw ▸ hth'⟩
    · rw [show qualOf k it = none from if_neg hq] at h
      cases hr : bestScore k rest with
      | none =>
        rw [hr] at h
        simp [mergeOpt] at h
      | some w =>
        rw [hr] at h
        simp only [mergeOpt] at h
        injection h with h
        obtain ⟨it', hit', hid', hsim', hth'⟩ := ih w hr
        exact ⟨it', List.mem_cons_of_mem _ hit', hid', by rw [hsim', h], h ▸ hth'⟩

theorem bestScore_bounds (k : String) (items : List ScoredDoc) :
    ∀ v, bestScore k items = some v →
      ∀ it ∈ items, it.id = k → (1:ℝ)/10 < it.similarity → it.similarity ≤ v := by
  induction items with
  | nil => simp
  | cons it0 rest ih =>
    intro v h it hmem hid hth
    simp only [bestScore] at h
    rcases List.mem_cons.mp hmem with hm | hm
    · subst hm
      rw [show qualOf k it = some it.similarity from if_pos ⟨hid, hth⟩] at h
      cases hr : bestScore k rest with
      | none =>
        rw [hr] at h
        simp only [mergeOpt] at h
        injection h with h
        exact le_of_eq h
      | some w =>
        rw [hr] at h
        simp only [mergeOpt] at h
        injection h with h
        exact h ▸ le_max_left _ _
    · cases hr : bestScore k rest with
      | none => exact absurd hr (bestScore_ne_none k rest it hm hid hth)
      | some w =>
        have hle := ih w hr it hm hid hth
        rw [hr] at h
        cases hq0 : qualOf k it0 <;> rw [hq0] at h <;> simp only [mergeOpt] at h <;>
          injection h with h
        · exact h ▸ hle
        · exact h ▸ le_trans hle (le_max_right _ _)

/-- All scored items produced across all queries, in processing order. -/
noncomputable def allItems (embedQ : String → List ℝ) (docs : List VectorDoc) :
    List String → List ScoredDoc
  | [] => []
  | q :: rest => List.map (scoreDoc embedQ q) docs ++ allItems embedQ docs rest

theorem searchFold_eq_foldl (embedQ : String → List ℝ) (docs : List VectorDoc)
    (queries : List String) :
    searchFold embedQ docs queries = (allItems embedQ docs queries).foldl considerItem [] := by
  suffices h : ∀ m, queries.foldl
      (fun m q => (List.map (scoreDoc embedQ q) docs).foldl considerItem m) m =
      (allItems embedQ docs queries).foldl considerItem m from h []
  induction queries with
  | nil => intro m; rfl
  | cons q rest ih =>
    intro m
    simp only [List.foldl_cons, allItems, List.foldl_append]
    exact ih _

theorem mem_allItems (embedQ : String → List ℝ) (docs : List VectorDoc)
    (queries : List String) (it : ScoredDoc) :
    it ∈ allItems embedQ docs queries ↔
      ∃ q ∈ queries, ∃ d ∈ docs, it = scoreDoc embedQ q d := by
  induction queries with
  | nil => simp [allItems]
  | cons q rest ih =>
    simp only [allItems, List.mem_append, List.mem_map, ih, List.mem_cons]
    constructor
    · rintro (⟨d, hd, rfl⟩ | ⟨q', hq', d, hd, rfl⟩)
      · exact ⟨q, Or.inl rfl, d, hd, rfl⟩
      · exact ⟨q', Or.inr hq', d, hd, rfl⟩
    · rintro ⟨q', hq' | hq', d, hd, rfl⟩
      · exact Or.inl ⟨d, hd, hq' ▸ rfl⟩
      · exact Or.inr ⟨q', hq', d, hd, rfl⟩

theorem lookupEntry_of_mem_nodup (m : ResultMap) (k : String) (e : ResultEntry)
    (hnd : (m.map Prod.fst).Nodup) (hmem : (k, e) ∈ m) : lookupEntry m k = some e := by
  induction m with
  | nil => exact absurd hmem (List.not_mem_nil _)
  | cons kv rest ih =>
    simp only [List.map_cons, List.nodup_cons] at hnd
    rcases List.mem_cons.mp hmem with hm | hm
    · rw [← hm]
      simp [lookupEntry]
    · have hkne : ¬ (kv.1 = k) := by
        intro hk
        have hkm : k ∈ rest.map Prod.fst := List.mem_map_of_mem Prod.fst hm
        exact hnd.1 (hk ▸ hkm)
      simp only [lookupEntry]
      rw [if_neg hkne]
      exact ih hnd.2 hm

/-- Claim C1: multi-query search scores and returns only chunks stored under
the requested embedding model — the search factors through the model filter,
so vectors of different models never meet in one similarity computation —
and when no chunks of that model exist the search returns empty. -/
theorem searchRecords_model_filtered (embedQ : String → List ℝ) (docs : List VectorDoc)
    (queries : List String) (topK : ℕ) (model : String) :
    (searchRecords embedQ docs queries topK model =
      searchRecords embedQ (docs.filter fun d => d.embeddingModel = model)
        queries topK model) ∧
    ((docs.filter fun d => d.embeddingModel = model) = [] →
      searchRecords embedQ docs queries topK model = [] ∧
      searchWithEnhancedQueries embedQ docs queries topK model = []) ∧
    (∀ p ∈ searchRecords embedQ docs queries topK model,
      ∃ d ∈ docs, d.embeddingModel = model ∧ d.id = p.1 ∧
        d.content = p.2.content ∧ d.filename = p.2.filename) := by
  have hff : ((docs.filter fun d => d.embeddingModel = model).filter
      fun d => d.embeddingModel = model) = docs.filter fun d => d.embeddingModel = model :=
    by simp [List.filter_filter]
  refine ⟨?_, ?_, ?_⟩
  · simp only [searchRecords, hff]
  · intro h
    have h1 : searchRecords embedQ docs queries topK model = [] := by
      simp [searchRecords, h]
    exact ⟨h1, by simp [searchWithEnhancedQueries, h1]⟩
  · intro p hp
    simp only [searchRecords] at hp
    split at hp
    · exact absurd hp (List.not_mem_nil p)
    · have hp1 : p ∈ (searchFold embedQ
          (docs.filter fun d => d.embeddingModel = model) queries).mergeSort byScoreDesc :=
        List.mem_of_mem_take hp
      have hp2 : p ∈ searchFold embedQ
          (docs.filter fun d => d.embeddingModel = model) queries :=
        ((List.mergeSort_perm _ byScoreDesc).mem_iff).mp hp1
      rw [searchFold_eq_foldl] at hp2
      rcases foldl_considerItem_mem _ _ p hp2 with h | ⟨it, hit, rfl⟩
      · exact absurd h (List.not_mem_nil p)
      · obtain ⟨q, hq, d, hd, rfl⟩ := (mem_allItems _ _ _ _).mp hit
        exact ⟨d, (List.mem_filter.mp hd).1,
          of_decide_eq_true (List.mem_filter.mp hd).2, rfl, rfl, rfl⟩

/-- Claim C6: the ranked multi-query search result contains each chunk id at
most once, every kept score is the maximum over all queries of the chunk's
boosted score and strictly exceeds the 0.1 threshold, and results are sorted
by descending score and truncated to `topK`. -/
theorem searchRecords_ranked (embedQ : String → List ℝ) (docs : List VectorDoc)
    (queries : List String) (topK : ℕ) (model : String) :
    ((searchRecords embedQ docs queries topK model).map Prod.fst).Nodup ∧
    (searchRecords embedQ docs queries topK model).length ≤ topK ∧
    List.Sorted (fun a b : String × ResultEntry => b.2.maxSimilarity ≤ a.2.maxSimilarity)
      (searchRecords embedQ docs queries topK model) ∧
    (∀ p ∈ searchRecords embedQ docs queries topK model,
      (1:ℝ)/10 < p.2.maxSimilarity ∧
      ∃ d ∈ docs.filter (fun d => d.embeddingModel = model), d.id = p.1 ∧
        (∃ q ∈ queries, p.2.maxSimilarity = boostedScore embedQ q d) ∧
        (∀ q ∈ queries, boostedScore embedQ q d ≤ p.2.maxSimilarity)) := by
  classical
  set compat := docs.filter fun d => d.embeddingModel = model with hcompat
  have hmn : ((searchFold embedQ compat queries).map Prod.fst).Nodup := by
    rw [searchFold_eq_foldl]
    exact foldl_considerItem_nodup _ [] (by simp)
  have htrans : ∀ a b c : String × ResultEntry, byScoreDesc a b = true →
      byScoreDesc b c = true → byScoreDesc a c = true := by
    intro a b c hab hbc
    simp only [byScoreDesc, decide_eq_true_eq] at *
    exact le_trans hbc hab
  have htotal : ∀ a b : String × ResultEntry, (byScoreDesc a b || byScoreDesc b a) = true := by
    intro a b
    simp only [byScoreDesc, Bool.or_eq_true, decide_eq_true_eq]
    exact le_total _ _
  by_cases hempty : compat.isEmpty
  · have hnil : searchRecords embedQ docs queries topK model = [] := by
      simp only [searchRecords, ← hcompat]
      rw [if_pos hempty]
    rw [hnil]
    refine ⟨by simp, by simp, by simp, by simp⟩
  · have hrs : searchRecords embedQ docs queries topK model =
        ((searchFold embedQ compat queries).mergeSort byScoreDesc).take topK := by
      simp only [searchRecords, ← hcompat]
      rw [if_neg hempty]
    rw [hrs]
    refine ⟨?_, List.length_take_le _ _, ?_, ?_⟩
    · refine List.Nodup.sublist (List.Sublist.map Prod.fst (List.take_sublist _ _)) ?_
      exact ((List.mergeSort_perm _ byScoreDesc).map Prod.fst).nodup_iff.mpr hmn
    · have hpair := List.sorted_mergeSort htrans htotal (searchFold embedQ compat queries)
      have hpair' : List.Pairwise
          (fun a b : String × ResultEntry => b.2.maxSimilarity ≤ a.2.maxSimilarity)
          ((searchFold embedQ compat queries).mergeSort byScoreDesc) :=
        hpair.imp fun h => of_decide_eq_true h
      exact hpair'.sublist (List.take_sublist _ _)
    · intro p hp
      have hp1 : p ∈ (searchFold embedQ compat queries).mergeSort byScoreDesc :=
        List.mem_of_mem_take hp
      have hp2 : p ∈ searchFold embedQ compat queries :=
        ((List.mergeSort_perm _ byScoreDesc).mem_iff).mp hp1
      have hlk : lookupEntry (searchFold embedQ compat queries) p.1 = some p.2 :=
        lookupEntry_of_mem_nodup _ _ _ hmn (by rw [Prod.mk.eta]; exact hp2)
      have hbs : bestScore p.1 (allItems embedQ compat queries) = some p.2.maxSimilarity := by
        have := foldl_considerItem_lookup (allItems embedQ compat queries) [] p.1
        rw [← searchFold_eq_foldl, hlk] at this
        simpa [lookupEntry, mergeOpt] using this.symm
      obtain ⟨it, hit, hid, hsim, hth⟩ :=
        bestScore_some_exists p.1 (allItems embedQ compat queries) p.2.maxSimilarity hbs
      obtain ⟨q, hq, d, hd, rfl⟩ := (mem_allItems _ _ _ _).mp hit
      refine ⟨hth, d, hd, hid, ⟨q, hq, hsim.symm⟩, ?_⟩
      intro q' hq'
      by_cases hth' : (1:ℝ)/10 < boostedScore embedQ q' d
      · have hmem : scoreDoc embedQ q' d ∈ allItems embedQ compat queries :=
          (mem_allItems _ _ _ _).mpr ⟨q', hq', d, hd, rfl⟩
        exact bestScore_bounds p.1 (allItems embedQ compat queries) p.2.maxSimilarity hbs
          (scoreDoc embedQ q' d) hmem hid hth'
      · exact le_of_lt (lt_of_le_of_lt (le_of_not_lt hth') hth)

/-- A record whose function-name metadata matches the query, exhibiting a
boosted search score above 1. -/
def dBoost : VectorDoc :=
  { id := "d1", content := "c", filename := "zz.ts", embeddingModel := "m",
    embedding := [1], functionNames := ["test"], classNames := [], keywords := [],
    lineStart := 1, lineEnd := 2 }

/-- The metadata relevance boost of `searchWithEnhancedQueries` lies in
`[0, 0.65]` (the four bonus terms sum to at most 0.2+0.2+0.1+0.15). -/
theorem relevanceBoost_bounds (q : String) (d : VectorDoc) :
    0 ≤ relevanceBoost q d ∧ relevanceBoost q d ≤ 13/20 := by
  simp only [relevanceBoost]
  constructor <;> split_ifs <;> norm_num

/-- Claim C4 (as stated) is false: the store's cosine similarity is not
clamped to `[0,1]` — on the vectors `[1]` and `[-1]` it equals `-1` — and
the boosted search score `similarity + relevanceBoost` is not capped at 1
either: a record whose function-name metadata matches the query scores
`1.2 > 1`. -/
theorem cosineSimilarity_counterexample :
    (cosineSimilarity [1] [-1] = -1 ∧ ¬ (0 ≤ cosineSimilarity [1] [-1])) ∧
    (boostedScore (fun _ => [1]) "test" dBoost = 12/10 ∧
      ¬ (boostedScore (fun _ => [1]) "test" dBoost ≤ 1)) := by
  have h : cosineSimilarity [1] [-1] = -1 := by
    simp [cosineSimilarity, dotList, sumSq]
  have hc1 : cosineSimilarity [1] [1] = 1 := by
    simp [cosineSimilarity, dotList, sumSq]
  have hrb : relevanceBoost "test" dBoost = 2/10 := by
    simp only [relevanceBoost]
    norm_num [dBoost, show (containsSub (lowerChars ("test" : String).data)
        (lowerChars ("test" : String).data)) = true from by decide,
      show (containsSub (lowerChars ("test" : String).data)
        (lowerChars ("zz.ts" : String).data)) = false from by decide,
      show (containsSub (stripExtension (lowerChars ("zz.ts" : String).data))
        (lowerChars ("test" : String).data)) = false from by decide]
  have hb : boostedScore (fun _ => [1]) "test" dBoost = 12/10 := by
    have he : dBoost.embedding = [1] := rfl
    rw [boostedScore, he, hc1, hrb]
    push_cast
    norm_num
  exact ⟨⟨h, by rw [h]; norm_num⟩, hb, by rw [hb]; norm_num⟩

/-- Claim C4, amended: relevance scores and confidence scores are clamped
to `[0,1]`; raw cosine similarity is only bounded in `[-1,1]` (for vectors
of positive squared magnitude); and the boosted search score adds an
uncapped metadata boost in `[0, 0.65]` on top of the similarity, so it
ranges over `[-1, 1.65]` and can exceed 1 — neither the cosine nor the
boosted score is confined to `[0,1]` (see the counterexample). -/
theorem scores_bounded (a b : List ℝ) (ha : 0 < sumSq a) (hb : 0 < sumSq b)
    (chunk : ContextChunk) (query : List Char) (chunks : List ContextChunk)
    (hc : ∀ c ∈ chunks, 0 ≤ c.relevanceScore ∧ c.relevanceScore ≤ 1)
    (embedQ : String → List ℝ) (q : String) (d : VectorDoc)
    (he : 0 < sumSq (embedQ q)) (hf : 0 < sumSq d.embedding) :
    (-1 ≤ cosineSimilarity a b ∧ cosineSimilarity a b ≤ 1) ∧
    (0 ≤ calculateRelevanceScore chunk query ∧ calculateRelevanceScore chunk query ≤ 1) ∧
    (0 ≤ calculateConfidence chunks ∧ calculateConfidence chunks ≤ 1) ∧
    (0 ≤ relevanceBoost q d ∧ relevanceBoost q d ≤ 13/20) ∧
    (-1 ≤ boostedScore embedQ q d ∧ boostedScore embedQ q d ≤ 1 + 13/20) := by
  refine ⟨cosine_bounds a b ha hb, ?_, ?_, relevanceBoost_bounds q d, ?_⟩
  · simp only [calculateRelevanceScore]
    have hbase := relevanceBase_nonneg chunk query
    constructor
    · refine le_min ?_ (by norm_num)
      split_ifs <;> linarith
    · exact min_le_right _ _
  · simp only [calculateConfidence]
    split
    · norm_num
    · rename_i hne
      have hlen : 0 < (chunks.length : ℚ) := by
        have : chunks.length ≠ 0 := hne
        have : 0 < chunks.length := Nat.pos_of_ne_zero this
        exact_mod_cast this
      have hsum0 : 0 ≤ (List.map (fun c : ContextChunk => c.relevanceScore) chunks).sum :=
        List.sum_nonneg fun x hx => by
          obtain ⟨c, hcm, rfl⟩ := List.mem_map.mp hx
          exact (hc c hcm).1
      have hsum1 : (List.map (fun c : ContextChunk => c.relevanceScore) chunks).sum
          ≤ chunks.length := by
        have := list_sum_le_length (List.map (fun c : ContextChunk => c.relevanceScore) chunks)
          (fun x hx => by
            obtain ⟨c, hcm, rfl⟩ := List.mem_map.mp hx
            exact (hc c hcm).2)
        simpa using this
      have havg0 : (0:ℚ) ≤ (List.map (fun c : ContextChunk => c.relevanceScore) chunks).sum
          / (chunks.length : ℚ) := div_nonneg hsum0 (le_of_lt hlen)
      have havg1 : (List.map (fun c : ContextChunk => c.relevanceScore) chunks).sum
          / (chunks.length : ℚ) ≤ 1 := by
        rw [div_le_one hlen]
        exact hsum1
      have hdiv0 : (0:ℚ) ≤
          (((List.map (fun c : ContextChunk => c.filename) chunks).dedup).length : ℚ)
            / (chunks.length : ℚ) := by positivity
      have hdiv1 : (((List.map (fun c : ContextChunk => c.filename) chunks).dedup).length : ℚ)
          / (chunks.length : ℚ) ≤ 1 := by
        rw [div_le_one hlen]
        have hsub : ((List.map (fun c : ContextChunk => c.filename) chunks).dedup).length
            ≤ (List.map (fun c : ContextChunk => c.filename) chunks).length :=
          List.Sublist.length_le (List.dedup_sublist _)
        have : ((List.map (fun c : ContextChunk => c.filename) chunks).dedup).length
            ≤ chunks.length := by simpa using hsub
        exact_mod_cast this
      constructor
      · refine le_min ?_ (by norm_num)
        linarith
      · exact min_le_right _ _
  · obtain ⟨hl, hr⟩ := cosine_bounds (embedQ q) d.embedding he hf
    obtain ⟨hb0, hb1⟩ := relevanceBoost_bounds q d
    have hb0r : (0:ℝ) ≤ ((relevanceBoost q d : ℚ) : ℝ) := by exact_mod_cast hb0
    have h13 : (((13:ℚ)/20 : ℚ) : ℝ) = 13/20 := by norm_num
    have hb1r : ((relevanceBoost q d : ℚ) : ℝ) ≤ 13/20 := by
      rw [← h13]
      exact_mod_cast hb1
    rw [boostedScore]
    exact ⟨by linarith, by linarith⟩

/-- Witness for the amended C4 at concrete inputs. -/
theorem scores_bounded_witness :
    (0 < sumSq [1] ∧
      (∀ c ∈ ([] : List ContextChunk), 0 ≤ c.relevanceScore ∧ c.relevanceScore ≤ 1)) ∧
    ((-1 ≤ cosineSimilarity [1] [1] ∧ cosineSimilarity [1] [1] ≤ 1) ∧
      (0 ≤ calculateRelevanceScore ⟨[], [], 1, 1, 0⟩ "q".data ∧
        calculateRelevanceScore ⟨[], [], 1, 1, 0⟩ "q".data ≤ 1) ∧
      (0 ≤ calculateConfidence [] ∧ calculateConfidence [] ≤ 1) ∧
      (0 ≤ relevanceBoost "q" dBoost ∧ relevanceBoost "q" dBoost ≤ 13/20) ∧
      (-1 ≤ boostedScore (fun _ => [1]) "q" dBoost ∧
        boostedScore (fun _ => [1]) "q" dBoost ≤ 1 + 13/20)) :=
  ⟨⟨by norm_num [sumSq], by simp⟩,
    scores_bounded [1] [1] (by norm_num [sumSq]) (by norm_num [sumSq])
      ⟨[], [], 1, 1, 0⟩ "q".data [] (by simp) (fun _ => [1]) "q" dBoost
      (by norm_num [sumSq]) (by norm_num [dBoost, sumSq])⟩
